import Mathlib

/-!
Verification of the po-translator-llm core: the PO catalog codec
(`src/parser.ts`), the adaptive rate limiter (`src/rate-limiter.ts`)
and the batch translation orchestrator (`src/translator.ts`), together
with the configuration fallbacks of `src/translate.ts`.

JavaScript strings are modelled as `List Char`; JavaScript numbers as
`ℕ`/`ℤ`/`ℚ` (rationals stand in for IEEE doubles: every claim below only
uses clamps, doublings and floors that are insensitive to the rounding
of `* 0.8` / `* 0.95`).  Each definition mirrors one function of the
source, keeping its name.
-/

namespace PoT

/-- JavaScript strings, modelled as lists of characters. -/
abbrev Str := List Char

/-- Prefix test: `isPre p s` is true when `p` is a prefix of `s` (JS `String.startsWith`). -/
def isPre : Str → Str → Bool
  | [], _ => true
  | _ :: _, [] => false
  | p :: ps, c :: cs => p = c && isPre ps cs

/-- JS `String.endsWith` for a single-character suffix: the last character is `c`. -/
def endsWithChar (c : Char) (s : Str) : Bool :=
  match s with
  | [] => false
  | [d] => d = c
  | _ :: rest => endsWithChar c rest

/-- The whitespace characters JS `trim` strips (ASCII fragment). -/
def isWs (c : Char) : Bool :=
  c = ' ' || c = '\t' || c = '\n' || c = '\r'

/-- JS `String.trim`: drop whitespace from both ends. -/
def jsTrim (s : Str) : Str :=
  (s.dropWhile isWs).reverse.dropWhile isWs |>.reverse

/-- JS `content.split("\n")`: split on newline characters; `""` splits to `[""]`,
a trailing newline yields a trailing empty piece. -/
def splitNL : Str → List Str
  | [] => [[]]
  | c :: r =>
    if c = '\n' then [] :: splitNL r
    else
      match splitNL r with
      | l :: ls => (c :: l) :: ls
      | [] => [[c]]

theorem splitNL_ne_nil (s : Str) : splitNL s ≠ [] := by
  induction s with
  | nil => simp [splitNL]
  | cons c r ih =>
    simp only [splitNL]
    split
    · simp
    · cases h : splitNL r with
      | nil => exact absurd h ih
      | cons l ls => simp

/-! ### The four escape passes of `PoParser.escapeString`

`escapeString` is `str.replace(/\\/g,"\\\\").replace(/"/g,'\\"')
.replace(/\n/g,"\\n").replace(/\t/g,"\\t")`.  Each pass is a
left-to-right global replacement of one source character `x` by a
replacement string (never rescanned), so all four are instances of one
scheme. -/

/-- JS `s.replace(x_regex, rep)` for a single-character pattern `x`. -/
def escChar1 (x : Char) (rep : Str) : Str → Str
  | [] => []
  | c :: r => if c = x then rep ++ escChar1 x rep r else c :: escChar1 x rep r

/-- Pass `replace(/\\/g, "\\\\")`. -/
def escBS : Str → Str := escChar1 '\\' ['\\', '\\']

/-- Pass `replace(/"/g, '\\"')`. -/
def escQ : Str → Str := escChar1 '"' ['\\', '"']

/-- Pass `replace(/\n/g, "\\n")`. -/
def escNL : Str → Str := escChar1 '\n' ['\\', 'n']

/-- Pass `replace(/\t/g, "\\t")`. -/
def escTab : Str → Str := escChar1 '\t' ['\\', 't']

/-- The chain `PoParser.escapeString`. -/
def escapeString (s : Str) : Str :=
  escTab (escNL (escQ (escBS s)))

/-! ### The four unescape passes of `PoParser.parseString`

`parseString` strips the surrounding quotes and then runs
`.replace(/\\n/g,"\n").replace(/\\t/g,"\t").replace(/\\"/g,'"')
.replace(/\\\\/g,"\\")`: each pass replaces the two-character pattern
backslash-`x` by one character `y`, scanned left to right without
overlap, so all four are instances of one scheme. -/

/-- JS `s.replace(bs_x_regex, y)` for the two-character pattern `\x`. -/
def unescPair (x y : Char) : Str → Str
  | [] => []
  | [c] => [c]
  | c :: d :: r =>
    if c = '\\' ∧ d = x then y :: unescPair x y r else c :: unescPair x y (d :: r)

/-- Pass `replace(/\\n/g, "\n")`. -/
def unescNL : Str → Str := unescPair 'n' '\n'

/-- Pass `replace(/\\t/g, "\t")`. -/
def unescTab : Str → Str := unescPair 't' '\t'

/-- Pass `replace(/\\"/g, '"')`. -/
def unescQ : Str → Str := unescPair '"' '"'

/-- Pass `replace(/\\\\/g, "\\")`. -/
def unescBS : Str → Str := unescPair '\\' '\\'

/-- The unescaping chain inside `PoParser.parseString`. -/
def unescapeString (s : Str) : Str :=
  unescBS (unescQ (unescTab (unescNL s)))

/-! ### Data model (`src/types.ts`) -/

/-- The interface `TranslationEntry`: `comments` is an optional array, `line` an
optional number (JS `undefined` is `none`). -/
structure TranslationEntry where
  msgid : Str
  msgstr : Str
  comments : Option (List Str)
  sourceLine : Option Nat
deriving Repr, DecidableEq

/-- The interface `PoFile`: the header object is an insertion-ordered key/value list. -/
structure PoFile where
  header : List (Str × Str)
  entries : List TranslationEntry
deriving Repr, DecidableEq

/-! ### `PoParser.parse` (src/parser.ts) -/

/-- Keyword `"msgid "` used by the field test. -/
def kwMsgid : Str := "msgid ".toList

/-- Keyword `"msgstr "` used by the field test. -/
def kwMsgstr : Str := "msgstr ".toList

/-- JS truthiness of an optional string: defined and non-empty. -/
def truthyS : Option Str → Bool
  | some (_ :: _) => true
  | _ => false

/-- The function `PoParser.parseString`: strip surrounding quotes and unescape;
a string not wrapped in quotes is returned as is. -/
def parseString (s : Str) : Str :=
  if isPre ['"'] s ∧ endsWithChar '"' s then
    unescapeString (s.drop 1).dropLast
  else s

/-- The segment before the first `": "` (both `split(": ", 2)` fields use it). -/
def upToCS : Str → Str
  | c :: d :: r => if c = ':' ∧ d = ' ' then [] else c :: upToCS (d :: r)
  | [c] => [c]
  | [] => []

/-- The segment after the first `": "`, `none` when absent (JS `includes(": ")`). -/
def afterCS : Str → Option Str
  | c :: d :: r => if c = ':' ∧ d = ' ' then some r else afterCS (d :: r)
  | [_] => none
  | [] => none

/-- Split on the two-character sequence `\\n` (a literal backslash and `n`),
as `headerStr.split("\\n")` does. -/
def splitBSn : Str → List Str
  | c :: d :: r =>
    if c = '\\' ∧ d = 'n' then [] :: splitBSn r
    else
      match splitBSn (d :: r) with
      | l :: ls => (c :: l) :: ls
      | [] => [[c]]
  | [c] => [[c]]
  | [] => [[]]

/-- JS object assignment `header[key] = value`: overwrite in place, else append. -/
def setKey (h : List (Str × Str)) (k v : Str) : List (Str × Str) :=
  if h.any (fun p => p.1 = k) then h.map (fun p => if p.1 = k then (k, v) else p)
  else h ++ [(k, v)]

/-- The function `PoParser.parseHeader`: split the msgstr on literal `\\n`, keep the
`key: value` pieces (second field truncated at the next `": "`). -/
def parseHeader (headerStr : Str) : List (Str × Str) :=
  (splitBSn headerStr).foldl
    (fun h piece =>
      match afterCS piece with
      | some rest => setKey h (upToCS piece) (upToCS rest)
      | none => h)
    []

/-- The accumulator state of `PoParser.parse`'s line loop. -/
structure PState where
  entries : List TranslationEntry
  curMsgid : Option Str
  curMsgstr : Option Str
  curLine : Option Nat
  inMsgid : Bool
  inMsgstr : Bool
  header : List (Str × Str)
  isHeader : Bool
  comments : List Str
deriving Repr, DecidableEq

/-- The helper `PoParser.finishEntry`: push the accumulated entry when its msgid is truthy. -/
def finishEntry (st : PState) : List TranslationEntry :=
  if truthyS st.curMsgid then
    st.entries ++ [{ msgid := st.curMsgid.getD []
                     msgstr := st.curMsgstr.getD []
                     comments := if st.comments = [] then none else some st.comments
                     sourceLine := st.curLine }]
  else st.entries

/-- One iteration of `PoParser.parse`'s loop on line index `i` (0-based). -/
def parseStep (st : PState) (i : Nat) (raw : Str) : PState :=
  let ln := jsTrim raw
  if ln = [] then
    if truthyS st.curMsgid || truthyS st.curMsgstr then
      { st with entries := finishEntry st, curMsgid := none, curMsgstr := none,
                curLine := none, inMsgid := false, inMsgstr := false, comments := [] }
    else st
  else if isPre ['#'] ln then
    { st with comments := st.comments ++ [ln] }
  else if isPre kwMsgid ln then
    let m := parseString (ln.drop 6)
    let st' := { st with inMsgid := true, inMsgstr := false,
                         curMsgid := some m, curLine := some (i + 1) }
    if st.isHeader ∧ m = [] then st' else { st' with isHeader := false }
  else if isPre kwMsgstr ln then
    let m := parseString (ln.drop 7)
    let st' := { st with inMsgstr := true, inMsgid := false, curMsgstr := some m }
    if st.isHeader ∧ st.curMsgid = some [] then
      { st' with header := parseHeader m, isHeader := false,
                 curMsgid := none, curMsgstr := none, curLine := none }
    else st'
  else if isPre ['"'] ln ∧ endsWithChar '"' ln then
    let t := parseString ln
    if st.inMsgid then { st with curMsgid := some (st.curMsgid.getD [] ++ t) }
    else if st.inMsgstr then { st with curMsgstr := some (st.curMsgstr.getD [] ++ t) }
    else st
  else st

/-- Run the parse loop over a list of lines starting at index `i`. -/
def parseLines (st : PState) (i : Nat) : List Str → PState
  | [] => st
  | l :: ls => parseLines (parseStep st i l) (i + 1) ls

/-- The initial accumulator of `PoParser.parse`. -/
def initPState : PState :=
  { entries := [], curMsgid := none, curMsgstr := none, curLine := none,
    inMsgid := false, inMsgstr := false, header := [], isHeader := true, comments := [] }

/-- The trailing flush after the line loop. -/
def finalFlush (st : PState) : List TranslationEntry :=
  if truthyS st.curMsgid || truthyS st.curMsgstr then finishEntry st else st.entries

/-- The function `PoParser.parse`. -/
def parse (content : Str) : PoFile :=
  let st := parseLines initPState 0 (splitNL content)
  { header := st.header, entries := finalFlush st }

/-! ### `PoParser.serialize` -/

/-- The literal `msgid ""` line with its newline. -/
def hdrMsgidLine : Str := "msgid \"\"\n".toList

/-- The literal `msgstr ""` line with its newline. -/
def hdrMsgstrLine : Str := "msgstr \"\"\n".toList

/-- One emitted header field: `"key: value\n"` (the `\n` is the two-character
escape) followed by a real newline. -/
def serializeHeaderField (kv : Str × Str) : Str :=
  '"' :: (kv.1 ++ (':' :: ' ' :: kv.2) ++ ['\\', 'n', '"', '\n'])

/-- The opening of an emitted msgid field: `msgid "`. -/
def fldMsgid : Str := "msgid \"".toList

/-- The opening of an emitted msgstr field: `msgstr "`. -/
def fldMsgstr : Str := "msgstr \"".toList

/-- The emitted text of one entry: comments verbatim, escaped msgid and
msgstr fields, trailing blank line. -/
def serializeEntry (e : TranslationEntry) : Str :=
  (match e.comments with
   | some cs => (cs.map (fun c => c ++ ['\n'])).flatten
   | none => []) ++
  (fldMsgid ++ escapeString e.msgid ++ ['"', '\n']) ++
  (fldMsgstr ++ escapeString e.msgstr ++ ['"', '\n']) ++
  ['\n']

/-- The function `PoParser.serialize`. -/
def serialize (poFile : PoFile) : Str :=
  hdrMsgidLine ++ hdrMsgstrLine ++
  (poFile.header.map serializeHeaderField).flatten ++ ['\n'] ++
  (poFile.entries.map serializeEntry).flatten

/-! ### Round-trip infrastructure

Derived views of `escapeString` / `serialize` used to analyse
`parse (serialize c)`: the per-character block form of the escape chain,
the serialized output as a list of newline-free lines, and the
well-formedness conditions under which the entry sequence survives the
round trip. -/

/-- Concatenation of a per-character expansion. -/
def cmap (f : Char → Str) : Str → Str
  | [] => []
  | c :: r => f c ++ cmap f r

/-- Block form after the backslash-doubling escape pass. -/
def e0Block (c : Char) : Str :=
  if c = '\\' then ['\\', '\\'] else [c]

/-- Block form after the backslash and quote escape passes. -/
def e1Block (c : Char) : Str :=
  if c = '\\' then ['\\', '\\']
  else if c = '"' then ['\\', '"']
  else [c]

/-- Block form after the backslash, quote and newline escape passes. -/
def e2Block (c : Char) : Str :=
  if c = '\\' then ['\\', '\\']
  else if c = '"' then ['\\', '"']
  else if c = '\n' then ['\\', 'n']
  else [c]

/-- The block `escapeString` emits for one character. -/
def escBlock (c : Char) : Str :=
  if c = '\\' then ['\\', '\\']
  else if c = '"' then ['\\', '"']
  else if c = '\n' then ['\\', 'n']
  else if c = '\t' then ['\\', 't']
  else [c]

/-- Block form after the `\n`-unescaping pass. -/
def ue1Block (c : Char) : Str :=
  if c = '\\' then ['\\', '\\']
  else if c = '"' then ['\\', '"']
  else if c = '\t' then ['\\', 't']
  else [c]

/-- Block form after the `\n` and `\t` passes. -/
def ue2Block (c : Char) : Str :=
  if c = '\\' then ['\\', '\\']
  else if c = '"' then ['\\', '"']
  else [c]

/-- Block form after the `\n`, `\t` and `\"` passes. -/
def ue3Block (c : Char) : Str :=
  if c = '\\' then ['\\', '\\'] else [c]

/-- No literal backslash directly followed by `n` or `t`: on such pairs
the chained unescaping misreads the escaped backslash. -/
def noBSnt : Str → Bool
  | c :: d :: r => !(c = '\\' && (d = 'n' || d = 't')) && noBSnt (d :: r)
  | _ => true

/-- The `msgid ""` header stub without its newline. -/
def hdrMsgid0 : Str := "msgid \"\"".toList

/-- The `msgstr ""` header stub without its newline. -/
def hdrMsgstr0 : Str := "msgstr \"\"".toList

/-- One emitted header field line (no trailing newline). -/
def headerLine (kv : Str × Str) : Str :=
  '"' :: (kv.1 ++ (':' :: ' ' :: kv.2) ++ ['\\', 'n', '"'])

/-- The lines emitted for one entry: comments, msgid field, msgstr
field, blank separator. -/
def entryLines (e : TranslationEntry) : List Str :=
  (match e.comments with
   | some cs => cs
   | none => []) ++
  [fldMsgid ++ escapeString e.msgid ++ ['"'],
   fldMsgstr ++ escapeString e.msgstr ++ ['"'],
   []]

/-- The serialized preamble: header stubs, header field lines, blank. -/
def preLines (hdr : List (Str × Str)) : List Str :=
  [hdrMsgid0, hdrMsgstr0] ++ hdr.map headerLine ++ [[]]

/-- The serialized output as a list of newline-terminated lines. -/
def serLines (c : PoFile) : List Str :=
  preLines c.header ++ (c.entries.map entryLines).flatten

/-- The parser state right after the two serialized header stub lines:
the header branch consumed `msgid ""` / `msgstr ""` and reset the
accumulator, leaving only `inMsgstr` set. -/
def stAfterStubs : PState :=
  { entries := [], curMsgid := none, curMsgstr := none, curLine := none,
    inMsgid := false, inMsgstr := true, header := [], isHeader := false, comments := [] }

/-- The parser state between entry blocks: nothing accumulated, header
already consumed. -/
def entryStF (E : List TranslationEntry) (H : List (Str × Str)) (b1 b2 : Bool) : PState :=
  { entries := E, curMsgid := none, curMsgstr := none, curLine := none,
    inMsgid := b1, inMsgstr := b2, header := H, isHeader := false, comments := [] }

/-- The entry that parsing the serialized block of `e` (starting at line
index `n`) appends. -/
def peOf (e : TranslationEntry) (n : Nat) : TranslationEntry :=
  { msgid := e.msgid, msgstr := e.msgstr,
    comments :=
      match e.comments with
      | some cs => if cs = [] then none else some cs
      | none => none,
    sourceLine := some (n + (e.comments.getD []).length + 1) }

/-- The entries parsing appends for a list of serialized blocks. -/
def peList (n : Nat) : List TranslationEntry → List TranslationEntry
  | [] => []
  | e :: es => peOf e n :: peList (n + (entryLines e).length) es

/-- The fields of an entry the round-trip claim compares (`sourceLine`
is diagnostic only and not claimed). -/
def entryCore (e : TranslationEntry) : Str × Str × Option (List Str) :=
  (e.msgid, e.msgstr, e.comments)

/-- The msgstr value the header continuation lines accumulate. -/
def hAcc (kvs : List (Str × Str)) : Str :=
  (kvs.map (fun kv => unescapeString ((kv.1 ++ (':' :: ' ' :: kv.2)) ++ ['\\', 'n']))).flatten

/-- A comment a parse/serialize round trip can preserve: non-empty,
`#`-marked, newline-free, stable under trimming. -/
def WFComment (cm : Str) : Prop :=
  cm ≠ [] ∧ isPre ['#'] cm = true ∧ '\n' ∉ cm ∧ jsTrim cm = cm

/-- An entry the round trip can preserve: non-empty msgid, strings free
of literal backslash-`n` / backslash-`t` pairs, comments either absent
or a non-empty list of well-formed comment lines. -/
def WFEntry (e : TranslationEntry) : Prop :=
  e.msgid ≠ [] ∧ noBSnt e.msgid = true ∧ noBSnt e.msgstr = true ∧
  (match e.comments with
   | none => True
   | some cs => cs ≠ [] ∧ ∀ cm ∈ cs, WFComment cm)

/-- The header key `Language`. -/
def hdrKeyLanguage : Str := "Language".toList

/-- The header value `pt`. -/
def hdrValPt : Str := "pt".toList

/-- A catalog with a one-field header and no entries. -/
def cHdrOnly : PoFile :=
  { header := [(hdrKeyLanguage, hdrValPt)], entries := [] }

/-- The comment fixture `# note`. -/
def cmtNote : Str := "# note".toList

/-- The msgid fixture `Hello`. -/
def msgHello : Str := "Hello".toList

/-- The msgstr fixture `Ola`. -/
def msgOla : Str := "Ola".toList

/-- A well-formed fixture entry with one comment. -/
def entryHello : TranslationEntry :=
  { msgid := msgHello, msgstr := msgOla, comments := some [cmtNote], sourceLine := none }

/-- A catalog exercising header, comments and both fields. -/
def cRound : PoFile :=
  { header := [(hdrKeyLanguage, hdrValPt)], entries := [entryHello] }

/-! ### Configuration (`src/types.ts`, `src/translate.ts`) -/

/-- The interface `TranslationConfig`; optional fields are `Option`, numbers are `ℕ`/`ℚ`. -/
structure TranslationConfig where
  provider : Str
  apiKey : Str
  model : Option Str
  targetLanguage : Str
  batchSize : Option Nat
  delay : Option ℚ
  maxRetries : Option Nat
  requestsPerMinute : Option Nat
  requestsPerSecond : Option Nat
  maxConcurrentRequests : Option Nat
  adaptiveRateLimit : Option Bool

/-- JS `x || d` on an optional number: `0` and `undefined` both fall through. -/
def falsyOrNat (x : Option Nat) (d : Nat) : Nat :=
  match x with
  | some v => if v = 0 then d else v
  | none => d

/-- JS `x || d` on an optional rational-valued number. -/
def falsyOrQ (x : Option ℚ) (d : ℚ) : ℚ :=
  match x with
  | some v => if v = 0 then d else v
  | none => d

/-- JS `Math.min` on two (non-NaN) numbers. -/
def jsMin (a b : ℚ) : ℚ := if a ≤ b then a else b

/-- JS `Math.max` on two (non-NaN) numbers. -/
def jsMax (a b : ℚ) : ℚ := if a ≤ b then b else a

/-- JS `config.adaptiveRateLimit || true` (rate-limiter constructor, line 82). -/
def jsOrTrue (b : Option Bool) : Bool :=
  match b with
  | some true => true
  | _ => true

/-! ### RateLimiter (`src/rate-limiter.ts`) -/

/-- The interface `RateLimitOptions`: the per-provider default limits rows. -/
structure RateLimitOptions where
  requestsPerMinute : Option Nat
  requestsPerSecond : Option Nat
  maxConcurrentRequests : Option Nat

/-- JS `toLowerCase` (ASCII fragment). -/
def jsToLower (s : Str) : Str := s.map Char.toLower

/-- The provider-family name `openai`. -/
def provOpenai : Str := "openai".toList

/-- The provider-family name `anthropic`. -/
def provAnthropic : Str := "anthropic".toList

/-- The provider-family name `gemini`. -/
def provGemini : Str := "gemini".toList

/-- The table `RateLimiter.getDefaultLimits`. -/
def getDefaultLimits (provider : Str) : RateLimitOptions :=
  if jsToLower provider = provOpenai then
    { requestsPerMinute := some 3500, requestsPerSecond := some 60,
      maxConcurrentRequests := some 10 }
  else if jsToLower provider = provAnthropic then
    { requestsPerMinute := some 4000, requestsPerSecond := some 50,
      maxConcurrentRequests := some 5 }
  else if jsToLower provider = provGemini then
    { requestsPerMinute := some 1500, requestsPerSecond := some 15,
      maxConcurrentRequests := some 5 }
  else
    { requestsPerMinute := some 1000, requestsPerSecond := some 10,
      maxConcurrentRequests := some 3 }

/-- The mutable state of a `RateLimiter` (timestamps in ms). -/
structure RateLimiter where
  requestTimes : List ℤ
  activeRequests : Nat
  requestsPerMinute : Nat
  requestsPerSecond : Nat
  maxConcurrentRequests : Nat
  adaptiveMode : Bool
  baseDelay : ℚ
  currentDelay : ℚ
deriving Repr, DecidableEq

/-- The `RateLimiter` constructor: `??` keeps explicit zeros, `delay` uses
the falsy `||` fallback, and `adaptiveMode` is `config.adaptiveRateLimit || true`. -/
def mkRateLimiter (config : TranslationConfig) : RateLimiter :=
  let defaultLimits := getDefaultLimits config.provider
  { requestTimes := []
    activeRequests := 0
    requestsPerMinute :=
      ((config.requestsPerMinute).orElse (fun _ => defaultLimits.requestsPerMinute)).getD 1000
    requestsPerSecond :=
      ((config.requestsPerSecond).orElse (fun _ => defaultLimits.requestsPerSecond)).getD 10
    maxConcurrentRequests :=
      ((config.maxConcurrentRequests).orElse (fun _ => defaultLimits.maxConcurrentRequests)).getD 3
    adaptiveMode := jsOrTrue config.adaptiveRateLimit
    baseDelay := falsyOrQ config.delay 1000
    currentDelay := falsyOrQ config.delay 1000 }

/-- A thrown JS error, reduced to the fields the limiter and providers inspect. -/
structure JsError where
  message : Option Str
  code : Option Nat
  status : Option Nat
  retryAfter : Option ℚ
deriving Repr, DecidableEq

/-- JS substring test `s.includes(pat)`. -/
def hasSub (pat : Str) : Str → Bool
  | [] => isPre pat []
  | c :: r => isPre pat (c :: r) || hasSub pat r

/-- The expression `error.code || error.status || 0`: a falsy chain on optional numbers. -/
def errCodeOf (e : JsError) : Nat :=
  match e.code with
  | some v => if v = 0 then (match e.status with
      | some w => if w = 0 then 0 else w
      | none => 0) else v
  | none =>
    match e.status with
    | some w => if w = 0 then 0 else w
    | none => 0

/-- The throttling phrase `rate limit`. -/
def phraseRateLimit : Str := "rate limit".toList

/-- The throttling phrase `too many requests`. -/
def phraseTooMany : Str := "too many requests".toList

/-- The throttling phrase `quota exceeded`. -/
def phraseQuota : Str := "quota exceeded".toList

/-- The throttling phrase `throttled`. -/
def phraseThrottled : Str := "throttled".toList

/-- The classifier `RateLimiter.isRateLimitError`: status 429 or a throttling phrase in
the lowercased message. -/
def isRateLimitError (e : Option JsError) : Bool :=
  match e with
  | none => false
  | some err =>
    let errorMessage := jsToLower (err.message.getD [])
    let errorCode := errCodeOf err
    errorCode = 429 ||
    hasSub phraseRateLimit errorMessage ||
    hasSub phraseTooMany errorMessage ||
    hasSub phraseQuota errorMessage ||
    hasSub phraseThrottled errorMessage

/-- The method `RateLimiter.handleRateLimit`: on a throttling-shaped error in adaptive
mode, double the delay capped at 30000 and shrink the concurrency ceiling
to `max 1 ⌊0.8·m⌋`; returns the classification. -/
def handleRateLimit (rl : RateLimiter) (error : Option JsError) : RateLimiter × Bool :=
  let isRL := isRateLimitError error
  if isRL && rl.adaptiveMode then
    ({ rl with currentDelay := jsMin (rl.currentDelay * 2) 30000
               maxConcurrentRequests := max 1 (rl.maxConcurrentRequests * 4 / 5) }, isRL)
  else (rl, isRL)

/-- The method `RateLimiter.handleSuccess`: decay the delay by 5%, floored at the base delay. -/
def handleSuccess (rl : RateLimiter) : RateLimiter :=
  if rl.adaptiveMode && rl.baseDelay < rl.currentDelay then
    { rl with currentDelay := jsMax rl.baseDelay (rl.currentDelay * (19 / 20)) }
  else rl

/-- The method `RateLimiter.releaseToken`: decrement in-flight, floored at zero. -/
def releaseToken (rl : RateLimiter) : RateLimiter :=
  { rl with activeRequests := rl.activeRequests - 1 }

/-! ### `RateLimiter.acquireToken` as an interleaved phase machine

Each `await` in `acquireToken` is a suspension point at which sibling
tasks may run.  A task's position inside the call is a phase; a schedule
names which task performs its next phase and at what `Date.now()` value.
The phases mirror the code: the concurrency check loops (re-checked after
every `sleep(100)`), the per-minute check prunes the shared window and
captures `now`, the per-second check reads that captured `now`, the
delay wait touches nothing, and the commit increments the in-flight
count and appends one fresh timestamp. -/
inductive AcqPhase
  | concCheck
  | minCheck
  | secCheck (now : ℤ)
  | delayCheck
  | commit
  | done
deriving Repr, DecidableEq

/-- One micro-step of `acquireToken` executed at clock value `time`. -/
def acqStep (rl : RateLimiter) (ph : AcqPhase) (time : ℤ) : RateLimiter × AcqPhase :=
  match ph with
  | .concCheck =>
    if rl.maxConcurrentRequests ≤ rl.activeRequests then (rl, .concCheck)
    else (rl, .minCheck)
  | .minCheck =>
    ({ rl with requestTimes := rl.requestTimes.filter (fun t => time - t < 60000) },
     .secCheck time)
  | .secCheck _ => (rl, .delayCheck)
  | .delayCheck => (rl, .commit)
  | .commit =>
    ({ rl with activeRequests := rl.activeRequests + 1
               requestTimes := rl.requestTimes ++ [time] }, .done)
  | .done => (rl, .done)

/-- A pool of concurrent `acquireToken` calls over the shared limiter. -/
structure AcqSys where
  rl : RateLimiter
  tasks : List AcqPhase
deriving Repr, DecidableEq

/-- Run the scheduled task's next phase. -/
def sysStep (s : AcqSys) (tid : Nat) (time : ℤ) : AcqSys :=
  match s.tasks[tid]? with
  | some ph =>
    let st := acqStep s.rl ph time
    { rl := st.1, tasks := s.tasks.set tid st.2 }
  | none => s

/-- Run a whole schedule of `(task, clock)` steps. -/
def runSched (s : AcqSys) : List (Nat × ℤ) → AcqSys
  | [] => s
  | (tid, t) :: rest => runSched (sysStep s tid t) rest

/-! ### Translator (`src/translator.ts`) -/

/-- The fallback `this.config.batchSize || 10` (translator line 79). -/
def batchSizeEff (cfg : TranslationConfig) : Nat := falsyOrNat cfg.batchSize 10

/-- The fallback `this.config.maxRetries || 3` (translator line 120). -/
def maxRetriesEff (cfg : TranslationConfig) : Nat := falsyOrNat cfg.maxRetries 3

/-- The selection filter of `translateFile`: skip empty msgid, skip entries
whose msgstr is non-empty and different from the msgid. -/
def shouldTranslate (entry : TranslationEntry) : Bool :=
  if entry.msgid = [] then false
  else if entry.msgstr ≠ [] ∧ entry.msgstr ≠ entry.msgid then false
  else true

/-- One provider call's outcome: a translated text, or a thrown error
already carrying its throttling classification and optional retry-after. -/
inductive ProvOutcome
  | ok (text : Str)
  | err (isRL : Bool) (retryAfter : Option ℚ)
deriving Repr, DecidableEq

/-- The observable effects of one `translateEntry` call: the entry's final
msgstr, the progress-counter increments, the backoff sleeps in order, and
the number of catalog writes. -/
structure EntryRun where
  msgstr : Str
  completedInc : Nat
  failedInc : Nat
  rateLimitHits : Nat
  sleeps : List ℚ
  persists : Nat
deriving Repr, DecidableEq

/-- The `while (retries < maxRetries)` loop of `translateEntry`.  A success
writes the text and persists; a throttling-shaped failure sleeps
`retryAfter || 5000·2^retries` and increments the counter; a generic
failure increments the counter first, then either sleeps `2000·retries`
(attempts remain) or falls back to the msgid, marks the entry failed and
persists.  The `fuel` argument only bounds the recursion structurally;
the loop's authentic guard `retries < maxRetries` is kept, and since
each iteration increments `retries` by one, `fuel = maxRetries - retries`
iterations always suffice (the entry call passes `maxRetries`). -/
def translateEntryLoop (oracle : Nat → ProvOutcome) (maxRetries : Nat) (msgid : Str) :
    Nat → EntryRun → Nat → Nat → EntryRun
  | 0, cur, _, _ => cur
  | fuel + 1, cur, retries, callIdx =>
    if retries < maxRetries then
      match oracle callIdx with
      | .ok t =>
        { cur with msgstr := t, completedInc := cur.completedInc + 1,
                   persists := cur.persists + 1 }
      | .err isRL ra =>
        if isRL then
          let waitTime := falsyOrQ ra (5000 * 2 ^ retries)
          translateEntryLoop oracle maxRetries msgid fuel
            { cur with rateLimitHits := cur.rateLimitHits + 1,
                       sleeps := cur.sleeps ++ [waitTime] }
            (retries + 1) (callIdx + 1)
        else
          if retries + 1 < maxRetries then
            translateEntryLoop oracle maxRetries msgid fuel
              { cur with sleeps := cur.sleeps ++ [2000 * (retries + 1 : ℚ)] }
              (retries + 1) (callIdx + 1)
          else
            { cur with msgstr := msgid, failedInc := cur.failedInc + 1,
                       persists := cur.persists + 1 }
    else cur

/-- The method `translateEntry` on one entry, driven by an oracle of provider outcomes. -/
def translateEntry (oracle : Nat → ProvOutcome) (cfg : TranslationConfig)
    (entry : TranslationEntry) : EntryRun :=
  translateEntryLoop oracle (maxRetriesEff cfg) entry.msgid (maxRetriesEff cfg)
    { msgstr := entry.msgstr, completedInc := 0, failedInc := 0,
      rateLimitHits := 0, sleeps := [], persists := 0 } 0 0

/-- The method `translateBatch`: every entry's task is launched and settled
independently (`Promise.allSettled`); entry `i` is driven by its own
outcome oracle `oracles (k+i)`. -/
def translateBatch (oracles : Nat → Nat → ProvOutcome) (cfg : TranslationConfig) :
    List TranslationEntry → Nat → List EntryRun
  | [], _ => []
  | e :: es, k => translateEntry (oracles k) cfg e :: translateBatch oracles cfg es (k + 1)

/-! ### Call sequences against the limiter's adaptive state -/

/-- One observed outcome reported to the limiter: a caught error (fed to
`handleRateLimit`) or a success (fed to `handleSuccess`). -/
inductive RLEvent
  | rateLimit (e : Option JsError)
  | success
deriving Repr

/-- Apply one reported event to the limiter state. -/
def applyEvent (rl : RateLimiter) : RLEvent → RateLimiter
  | .rateLimit e => (handleRateLimit rl e).1
  | .success => handleSuccess rl

/-- Apply a finite sequence of reported events. -/
def applyEvents (rl : RateLimiter) (evs : List RLEvent) : RateLimiter :=
  evs.foldl applyEvent rl

/-! ### Concrete fixtures used by the closed theorems -/

/-- The target-language fixture `pt`. -/
def langPt : Str := "pt".toList

/-- A baseline configuration: provider `openai`, everything else unset. -/
def cfgBase : TranslationConfig :=
  { provider := provOpenai, apiKey := [], model := none, targetLanguage := langPt,
    batchSize := none, delay := none, maxRetries := none, requestsPerMinute := none,
    requestsPerSecond := none, maxConcurrentRequests := none, adaptiveRateLimit := none }

/-- The configuration produced by `--no-adaptive-rate-limit`. -/
def cfgNoAdaptive : TranslationConfig := { cfgBase with adaptiveRateLimit := some false }

/-- A configuration with a 40-second base delay. -/
def cfgBigDelay : TranslationConfig := { cfgBase with delay := some 40000 }

/-- A configuration with `maxRetries` explicitly set to 1. -/
def cfgRetryOne : TranslationConfig := { cfgBase with maxRetries := some 1 }

/-- An HTTP 429 error with no message and no retry-after. -/
def err429 : JsError := { message := none, code := none, status := some 429, retryAfter := none }

/-- A throttling-shaped provider outcome with no retry-after. -/
def outThrottle : ProvOutcome := .err true none

/-- A generic (non-throttling) provider outcome. -/
def outGeneric : ProvOutcome := .err false none

/-- A fixture entry with msgid `a` and empty msgstr. -/
def entryA : TranslationEntry :=
  { msgid := ['a'], msgstr := [], comments := none, sourceLine := none }

/-- An oracle whose every call is a throttling-shaped failure. -/
def oracleThrottle : Nat → ProvOutcome := fun _ => outThrottle

/-- An oracle that fails generically once, then succeeds with `x`. -/
def oracleGenOnce : Nat → ProvOutcome := fun k => if k = 0 then outGeneric else .ok ['x']

/-- An idle limiter with concurrency ceiling 1 and delay 1000 (base 1000). -/
def rlCeilingOne : RateLimiter :=
  { requestTimes := [], activeRequests := 0, requestsPerMinute := 1000,
    requestsPerSecond := 10, maxConcurrentRequests := 1, adaptiveMode := true,
    baseDelay := 1000, currentDelay := 1000 }

/-- A schedule letting task 0 pass the concurrency check, then running
task 1 to completion, then committing task 0. -/
def schedOvershoot : List (Nat × ℤ) :=
  [(0, 0), (0, 0), (0, 0), (0, 0), (1, 0), (1, 0), (1, 0), (1, 0), (1, 0), (0, 0)]

/-- A line matching no grammar production: not blank, no comment marker,
no field keyword, not quote-delimited. -/
def junkLine : Str := "-- junk".toList

/-- Whether a provider outcome is a thrown error. -/
def ProvOutcome.isErrB : ProvOutcome → Bool
  | .err _ _ => true
  | .ok _ => false

/-- Whether a provider outcome is a throttling-shaped error. -/
def ProvOutcome.isRLB : ProvOutcome → Bool
  | .err b _ => b
  | .ok _ => false

/-- The initial accumulator of a `translateEntry` run over `entryA`. -/
def runA : EntryRun :=
  { msgstr := [], completedInc := 0, failedInc := 0, rateLimitHits := 0,
    sleeps := [], persists := 0 }

/-- The bounds the spec asserts of the limiter's adaptive state: delay
between base and 30000 ms, concurrency ceiling at least 1 (stated with a
non-negative base; see `adaptive_bounds_cex` for why some bound on the
configured base is needed). -/
def RLInv (rl : RateLimiter) : Prop :=
  0 ≤ rl.baseDelay ∧ rl.baseDelay ≤ rl.currentDelay ∧
  rl.currentDelay ≤ 30000 ∧ 1 ≤ rl.maxConcurrentRequests

/-!  ## Theorems  -/

/-- C6: the orchestrator's selection filter selects an entry iff its
msgid is non-empty and its msgstr is empty or identical to the msgid;
an entry with a non-empty msgstr different from its msgid is never
selected. -/
theorem selection_filter_iff (po : PoFile) (e : TranslationEntry) :
    e ∈ po.entries.filter shouldTranslate ↔
      e ∈ po.entries ∧ (e.msgid ≠ [] ∧ (e.msgstr = [] ∨ e.msgstr = e.msgid)) := by
  rw [List.mem_filter]
  have hpred : shouldTranslate e = true ↔
      (e.msgid ≠ [] ∧ (e.msgstr = [] ∨ e.msgstr = e.msgid)) := by
    unfold shouldTranslate
    split_ifs with h1 h2
    · simp_all
    · simp_all
    · simp_all
      tauto
  rw [hpred]

/-- C7: `parse` is total by construction, and a line matching none of the
grammar productions (blank, comment, msgid field, msgstr field, quoted
continuation) leaves the parser state untouched: it is silently skipped,
never an error. -/
theorem parse_skips_unrecognized (st : PState) (i : Nat) (raw : Str)
    (h1 : jsTrim raw ≠ [])
    (h2 : isPre ['#'] (jsTrim raw) = false)
    (h3 : isPre kwMsgid (jsTrim raw) = false)
    (h4 : isPre kwMsgstr (jsTrim raw) = false)
    (h5 : ¬(isPre ['"'] (jsTrim raw) = true ∧ endsWithChar '"' (jsTrim raw) = true)) :
    parseStep st i raw = st := by
  unfold parseStep
  simp only [h1, h2, h3, h4, if_false, if_neg h5, Bool.false_eq_true, ite_false]

/-- Witness for C7 at the concrete unrecognized line `-- junk`. -/
theorem parse_skips_unrecognized_witness :
    jsTrim junkLine ≠ [] ∧ parseStep initPState 0 junkLine = initPState :=
  ⟨by decide,
   parse_skips_unrecognized initPState 0 junkLine (by decide) (by decide) (by decide)
     (by decide) (by decide)⟩

/-- C9: in a batch every selected entry's task settles independently:
the batch result has one settled outcome per entry, and entry `i`'s
outcome is exactly its own `translateEntry` run under its own oracle,
whatever failures the sibling oracles produce. -/
theorem batch_isolation (oracles : Nat → Nat → ProvOutcome) (cfg : TranslationConfig)
    (es : List TranslationEntry) (k i : Nat) :
    (translateBatch oracles cfg es k).length = es.length ∧
    (translateBatch oracles cfg es k)[i]? =
      (es[i]?).map (fun e => translateEntry (oracles (k + i)) cfg e) := by
  induction es generalizing k i with
  | nil => simp [translateBatch]
  | cons e es ih =>
    refine ⟨by simpa [translateBatch] using (ih (k + 1) 0).1, ?_⟩
    cases i with
    | zero => simp [translateBatch]
    | succ j =>
      have := (ih (k + 1) j).2
      simpa [translateBatch, Nat.add_assoc, Nat.add_comm 1 j] using this

/-- C10: a configured `0` for batch size, max retries, or base delay is
replaced by the default (10, 3, 1000 ms) through the falsy `||` fallback,
so zero is not a configurable value for any of the three. -/
theorem zero_config_defaults (cfg : TranslationConfig) :
    batchSizeEff { cfg with batchSize := some 0 } = 10 ∧
    maxRetriesEff { cfg with maxRetries := some 0 } = 3 ∧
    (mkRateLimiter { cfg with delay := some 0 }).baseDelay = 1000 ∧
    batchSizeEff cfg ≠ 0 ∧
    maxRetriesEff cfg ≠ 0 ∧
    (mkRateLimiter cfg).baseDelay ≠ 0 := by
  refine ⟨by simp [batchSizeEff, falsyOrNat], by simp [maxRetriesEff, falsyOrNat],
          by simp [mkRateLimiter, falsyOrQ], ?_, ?_, ?_⟩
  · unfold batchSizeEff falsyOrNat
    cases cfg.batchSize with
    | none => simp
    | some v => by_cases hv : v = 0 <;> simp [hv]
  · unfold maxRetriesEff falsyOrNat
    cases cfg.maxRetries with
    | none => simp
    | some v => by_cases hv : v = 0 <;> simp [hv]
  · unfold mkRateLimiter falsyOrQ
    cases cfg.delay with
    | none => norm_num
    | some v => by_cases hv : v = 0 <;> simp [hv]

/-- C3: the adaptive-mode toggle is dead code.  The constructor computes
`config.adaptiveRateLimit || true`, which is `true` for every
configuration, so with the toggle explicitly off a throttling-shaped
error still doubles the delay (1000 → 2000) and still shrinks the
concurrency ceiling (10 → ⌊10·0.8⌋ = 8), contradicting both the claim
and the CLI's `--no-adaptive-rate-limit` help text; the call does return
the classification. -/
theorem adaptive_toggle_dead :
    cfgNoAdaptive.adaptiveRateLimit = some false ∧
    (mkRateLimiter cfgNoAdaptive).adaptiveMode = true ∧
    (mkRateLimiter cfgNoAdaptive).currentDelay = 1000 ∧
    (handleRateLimit (mkRateLimiter cfgNoAdaptive) (some err429)).1.currentDelay = 2000 ∧
    (mkRateLimiter cfgNoAdaptive).maxConcurrentRequests = 10 ∧
    (handleRateLimit (mkRateLimiter cfgNoAdaptive) (some err429)).1.maxConcurrentRequests = 8 ∧
    (handleRateLimit (mkRateLimiter cfgNoAdaptive) (some err429)).2 = true := by
  refine ⟨by decide, by decide, by decide, ?_, by decide, by decide, by decide⟩
  simp [handleRateLimit, mkRateLimiter, cfgNoAdaptive, cfgBase, jsOrTrue, falsyOrQ,
        jsMin, isRateLimitError, err429, errCodeOf]
  norm_num

/-- C4 counterexample: the claim quantifies over every initial limiter
state; with a configured base delay of 40000 ms the current delay
already exceeds 30000 ms after the empty call sequence. -/
theorem adaptive_bounds_cex :
    (applyEvents (mkRateLimiter cfgBigDelay) []).currentDelay = 40000 ∧
    ¬ (applyEvents (mkRateLimiter cfgBigDelay) []).currentDelay ≤ 30000 := by
  constructor
  · decide
  · intro h
    have : (applyEvents (mkRateLimiter cfgBigDelay) []).currentDelay = 40000 := by decide
    rw [this] at h
    norm_num at h

/-- One reported event preserves the adaptive bounds. -/
theorem applyEvent_inv (rl : RateLimiter) (ev : RLEvent) (h : RLInv rl) :
    RLInv (applyEvent rl ev) := by
  obtain ⟨h0, h1, h2, h3⟩ := h
  cases ev with
  | rateLimit e =>
    unfold applyEvent handleRateLimit
    dsimp only
    split_ifs with hc
    · refine ⟨h0, ?_, ?_, le_max_left 1 _⟩
      · unfold jsMin
        split_ifs with hle
        · linarith
        · linarith
      · unfold jsMin
        split_ifs with hle
        · linarith
        · linarith
    · exact ⟨h0, h1, h2, h3⟩
  | success =>
    unfold applyEvent handleSuccess
    split_ifs with hc
    · refine ⟨h0, ?_, ?_, h3⟩
      · unfold jsMax
        split_ifs with hle
        · linarith
        · linarith
      · unfold jsMax
        split_ifs with hle
        · linarith
        · linarith
    · exact ⟨h0, h1, h2, h3⟩

/-- Reported events never change the base delay. -/
theorem applyEvent_baseDelay (rl : RateLimiter) (ev : RLEvent) :
    (applyEvent rl ev).baseDelay = rl.baseDelay := by
  cases ev with
  | rateLimit e =>
    unfold applyEvent handleRateLimit
    dsimp only
    split_ifs <;> rfl
  | success =>
    unfold applyEvent handleSuccess
    split_ifs <;> rfl

/-- A whole event sequence preserves the bounds and the base delay. -/
theorem applyEvents_inv (rl : RateLimiter) (evs : List RLEvent) (h : RLInv rl) :
    RLInv (applyEvents rl evs) ∧ (applyEvents rl evs).baseDelay = rl.baseDelay := by
  induction evs generalizing rl with
  | nil => exact ⟨h, rfl⟩
  | cons ev evs ih =>
    have step := ih (applyEvent rl ev) (applyEvent_inv rl ev h)
    refine ⟨step.1, ?_⟩
    rw [applyEvents] at step ⊢
    simp only [List.foldl_cons]
    rw [step.2, applyEvent_baseDelay]

/-- C4 amended: provided the configured base delay lies in `[0, 30000]`
ms and the configured concurrency ceiling is at least 1, no finite
sequence of `handleRateLimit` / `handleSuccess` calls drives the delay
above 30000 ms or below the base delay, nor the ceiling below 1. -/
theorem adaptive_bounds (cfg : TranslationConfig) (evs : List RLEvent)
    (h0 : 0 ≤ (mkRateLimiter cfg).baseDelay)
    (h1 : (mkRateLimiter cfg).baseDelay ≤ 30000)
    (h2 : 1 ≤ (mkRateLimiter cfg).maxConcurrentRequests) :
    (mkRateLimiter cfg).baseDelay ≤ (applyEvents (mkRateLimiter cfg) evs).currentDelay ∧
    (applyEvents (mkRateLimiter cfg) evs).currentDelay ≤ 30000 ∧
    1 ≤ (applyEvents (mkRateLimiter cfg) evs).maxConcurrentRequests := by
  have hinit : RLInv (mkRateLimiter cfg) := by
    refine ⟨h0, ?_, ?_, h2⟩
    · exact le_of_eq rfl
    · exact h1
  have h := applyEvents_inv (mkRateLimiter cfg) evs hinit
  refine ⟨?_, h.1.2.2.1, h.1.2.2.2⟩
  have hb := h.2
  have := h.1.2.1
  rw [hb] at this
  exact this

/-- Witness for C4 amended: the default config (base delay 1000 ms,
ceiling 10) through a throttle report and a success report. -/
theorem adaptive_bounds_witness :
    (0 ≤ (mkRateLimiter cfgBase).baseDelay ∧
     (mkRateLimiter cfgBase).baseDelay ≤ 30000 ∧
     1 ≤ (mkRateLimiter cfgBase).maxConcurrentRequests) ∧
    ((mkRateLimiter cfgBase).baseDelay ≤
       (applyEvents (mkRateLimiter cfgBase) [.rateLimit (some err429), .success]).currentDelay ∧
     (applyEvents (mkRateLimiter cfgBase) [.rateLimit (some err429), .success]).currentDelay ≤ 30000 ∧
     1 ≤ (applyEvents (mkRateLimiter cfgBase) [.rateLimit (some err429), .success]).maxConcurrentRequests) :=
  ⟨⟨by norm_num [mkRateLimiter, falsyOrQ, cfgBase], by norm_num [mkRateLimiter, falsyOrQ, cfgBase],
    by decide⟩,
   adaptive_bounds cfgBase [.rateLimit (some err429), .success]
     (by norm_num [mkRateLimiter, falsyOrQ, cfgBase])
     (by norm_num [mkRateLimiter, falsyOrQ, cfgBase]) (by decide)⟩

/-- C5 counterexample: under a concurrency ceiling of 1, two interleaved
`acquireToken` calls both complete and hold un-released slots at once
(in-flight count 2), because both suspend between the concurrency check
and the commit; at the second return the in-flight count was not below
the ceiling, so the gating condition did not hold on return either. -/
theorem acquire_ceiling_cex :
    rlCeilingOne.maxConcurrentRequests = 1 ∧
    (runSched { rl := rlCeilingOne, tasks := [.concCheck, .concCheck] } schedOvershoot).tasks
      = [.done, .done] ∧
    (runSched { rl := rlCeilingOne, tasks := [.concCheck, .concCheck] } schedOvershoot).rl.activeRequests
      = 2 := ⟨by decide, by decide, by decide⟩

/-- C5 amended: `acquireToken` re-evaluates only the concurrency check in
a wait loop; the window and delay gates run once each.  A call that runs
without interleaving from a state below the ceiling completes in five
phases, increments the in-flight count by exactly one and records exactly
one new timestamp (the window pruned at the per-minute check); a call at
or above the ceiling stays in the concurrency-check loop. -/
theorem acquire_effects (rl : RateLimiter) (t1 t2 t3 t4 t5 : ℤ)
    (h : rl.activeRequests < rl.maxConcurrentRequests) :
    (runSched { rl := rl, tasks := [.concCheck] }
        [(0, t1), (0, t2), (0, t3), (0, t4), (0, t5)]).tasks = [.done] ∧
    (runSched { rl := rl, tasks := [.concCheck] }
        [(0, t1), (0, t2), (0, t3), (0, t4), (0, t5)]).rl.activeRequests
      = rl.activeRequests + 1 ∧
    (runSched { rl := rl, tasks := [.concCheck] }
        [(0, t1), (0, t2), (0, t3), (0, t4), (0, t5)]).rl.requestTimes
      = rl.requestTimes.filter (fun t => t2 - t < 60000) ++ [t5] ∧
    (∀ (s : RateLimiter) (t : ℤ), s.maxConcurrentRequests ≤ s.activeRequests →
      acqStep s .concCheck t = (s, .concCheck)) := by
  have hno : ¬ rl.maxConcurrentRequests ≤ rl.activeRequests := Nat.not_le.mpr h
  refine ⟨?_, ?_, ?_, ?_⟩
  · simp [runSched, sysStep, acqStep, hno]
  · simp [runSched, sysStep, acqStep, hno]
  · simp [runSched, sysStep, acqStep, hno]
  · intro s t hs
    simp [acqStep, hs]

/-- Witness for C5 amended: an idle limiter below its ceiling. -/
theorem acquire_effects_witness :
    rlCeilingOne.activeRequests < rlCeilingOne.maxConcurrentRequests ∧
    (runSched { rl := rlCeilingOne, tasks := [.concCheck] }
        [(0, 0), (0, 0), (0, 0), (0, 0), (0, 7)]).rl.activeRequests
      = rlCeilingOne.activeRequests + 1 :=
  ⟨by decide,
   (acquire_effects rlCeilingOne 0 0 0 0 7 (by decide)).2.1⟩

/-- A positive default keeps the falsy-or fallback positive. -/
theorem falsyOrNat_pos (x : Option Nat) (d : Nat) (hd : 0 < d) : 0 < falsyOrNat x d := by
  cases x with
  | none => simpa [falsyOrNat] using hd
  | some v =>
    by_cases hv : v = 0
    · simpa [falsyOrNat, hv] using hd
    · simp [falsyOrNat, hv]
      omega

/-- Once the retry counter reaches the budget the loop returns its
accumulator unchanged, whatever fuel remains. -/
theorem translateEntryLoop_stop (oracle : Nat → ProvOutcome) (M : Nat) (msgid : Str)
    (fuel : Nat) (cur : EntryRun) (r ci : Nat) (h : ¬ r < M) :
    translateEntryLoop oracle M msgid fuel cur r ci = cur := by
  cases fuel with
  | zero => rfl
  | succ f => simp [translateEntryLoop, h]

/-- Exhausting the budget from retry count `r` with `n = M - r` straight
failures: the copy-through fallback, failed increment and persist happen
iff the last of those failures is generic; a throttling-shaped last
failure leaves all four observable fields untouched. -/
theorem translateEntryLoop_exhaust (oracle : Nat → ProvOutcome) (M : Nat) (msgid : Str) :
    ∀ n fuel cur r ci, r + n = M → 0 < n → n ≤ fuel →
    (∀ k, k < n → (oracle (ci + k)).isErrB = true) →
    (((oracle (ci + (n - 1))).isRLB = false →
       (translateEntryLoop oracle M msgid fuel cur r ci).msgstr = msgid ∧
       (translateEntryLoop oracle M msgid fuel cur r ci).failedInc = cur.failedInc + 1 ∧
       (translateEntryLoop oracle M msgid fuel cur r ci).completedInc = cur.completedInc ∧
       (translateEntryLoop oracle M msgid fuel cur r ci).persists = cur.persists + 1) ∧
     ((oracle (ci + (n - 1))).isRLB = true →
       (translateEntryLoop oracle M msgid fuel cur r ci).msgstr = cur.msgstr ∧
       (translateEntryLoop oracle M msgid fuel cur r ci).failedInc = cur.failedInc ∧
       (translateEntryLoop oracle M msgid fuel cur r ci).completedInc = cur.completedInc ∧
       (translateEntryLoop oracle M msgid fuel cur r ci).persists = cur.persists)) := by
  intro n
  induction n with
  | zero =>
    intro fuel cur r ci _ h0 _ _
    exact absurd h0 (lt_irrefl 0)
  | succ m ih =>
    intro fuel cur r ci hrM hpos hfuel hfail
    obtain ⟨f, rfl⟩ : ∃ f, fuel = f + 1 := ⟨fuel - 1, by omega⟩
    have hr : r < M := by omega
    have h0 := hfail 0 (by omega)
    simp only [Nat.add_zero] at h0
    obtain ⟨b, ra, hor⟩ : ∃ b ra, oracle ci = .err b ra := by
      cases horc : oracle ci with
      | ok t =>
        rw [horc] at h0
        simp [ProvOutcome.isErrB] at h0
      | err b ra => exact ⟨b, ra, rfl⟩
    by_cases hm : m = 0
    · subst hm
      simp only [Nat.add_sub_cancel, Nat.add_zero]
      cases b with
      | true =>
        constructor
        · intro hfalse
          rw [hor] at hfalse
          simp [ProvOutcome.isRLB] at hfalse
        · intro _
          have hstop : ¬ r + 1 < M := by omega
          rw [translateEntryLoop]
          simp only [hr, if_true, hor, if_pos trivial, ite_true]
          rw [translateEntryLoop_stop oracle M msgid f _ _ _ hstop]
          simp
      | false =>
        constructor
        · intro _
          have hstop : ¬ r + 1 < M := by omega
          rw [translateEntryLoop]
          simp [hr, hor, hstop]
        · intro htrue
          rw [hor] at htrue
          simp [ProvOutcome.isRLB] at htrue
    · have hm1 : 0 < m := Nat.pos_of_ne_zero hm
      have hfail' : ∀ k, k < m → (oracle (ci + 1 + k)).isErrB = true := by
        intro k hk
        have hidx : ci + 1 + k = ci + (k + 1) := by omega
        rw [hidx]
        exact hfail (k + 1) (by omega)
      have hlast : ci + (m + 1 - 1) = ci + 1 + (m - 1) := by omega
      rw [hlast]
      cases b with
      | true =>
        rw [translateEntryLoop]
        simp only [hr, if_true, hor, if_pos trivial, ite_true]
        exact ih f _ (r + 1) (ci + 1) (by omega) hm1 (by omega) hfail'
      | false =>
        have hcont : r + 1 < M := by omega
        rw [translateEntryLoop]
        simp only [hr, if_true, hor, hcont, ite_true, ite_false, Bool.false_eq_true]
        exact ih f _ (r + 1) (ci + 1) (by omega) hm1 (by omega) hfail'

/-- C2 counterexample: with `maxRetries = 1` a single throttling-shaped
failure (no success) exhausts the budget, yet the entry keeps its empty
translation (≠ its msgid `a`), the failed count is not incremented and
nothing is persisted. -/
theorem retry_budget_cex :
    maxRetriesEff cfgRetryOne = 1 ∧
    translateEntry oracleThrottle cfgRetryOne entryA =
      { msgstr := [], completedInc := 0, failedInc := 0, rateLimitHits := 1,
        sleeps := [5000], persists := 0 } ∧
    entryA.msgid = ['a'] ∧ (['a'] : Str) ≠ [] := by
  refine ⟨by decide, ?_, by decide, by decide⟩
  simp [translateEntry, translateEntryLoop, maxRetriesEff, cfgRetryOne, cfgBase,
        falsyOrNat, falsyOrQ, oracleThrottle, outThrottle, entryA]

/-- C2 amended: when all `maxRetries` attempts fail, the copy-through
fallback (`translation = msgid`), the failed-count increment and the
persist happen iff the budget-exhausting last failure is generic; when
the last failed attempt is throttling-shaped the loop exits with the
translation, the failed count and the persist count untouched. -/
theorem retry_exhaustion (oracle : Nat → ProvOutcome) (cfg : TranslationConfig)
    (entry : TranslationEntry)
    (hfail : ∀ k, k < maxRetriesEff cfg → (oracle k).isErrB = true) :
    (((oracle (maxRetriesEff cfg - 1)).isRLB = false →
       (translateEntry oracle cfg entry).msgstr = entry.msgid ∧
       (translateEntry oracle cfg entry).failedInc = 1 ∧
       (translateEntry oracle cfg entry).completedInc = 0 ∧
       (translateEntry oracle cfg entry).persists = 1) ∧
     ((oracle (maxRetriesEff cfg - 1)).isRLB = true →
       (translateEntry oracle cfg entry).msgstr = entry.msgstr ∧
       (translateEntry oracle cfg entry).failedInc = 0 ∧
       (translateEntry oracle cfg entry).completedInc = 0 ∧
       (translateEntry oracle cfg entry).persists = 0)) := by
  have hpos : 0 < maxRetriesEff cfg := falsyOrNat_pos _ _ (by omega)
  have h := translateEntryLoop_exhaust oracle (maxRetriesEff cfg) entry.msgid
    (maxRetriesEff cfg) (maxRetriesEff cfg)
    { msgstr := entry.msgstr, completedInc := 0, failedInc := 0,
      rateLimitHits := 0, sleeps := [], persists := 0 } 0 0
    (by omega) hpos (le_refl _) (by intro k hk; simpa using hfail k hk)
  simpa [translateEntry] using h

/-- Witness for C2 amended: the default budget of 3 exhausted by three
throttling-shaped failures leaves the entry untouched. -/
theorem retry_exhaustion_witness :
    (∀ k, k < maxRetriesEff cfgBase → (oracleThrottle k).isErrB = true) ∧
    ((translateEntry oracleThrottle cfgBase entryA).msgstr = entryA.msgstr ∧
     (translateEntry oracleThrottle cfgBase entryA).failedInc = 0 ∧
     (translateEntry oracleThrottle cfgBase entryA).completedInc = 0 ∧
     (translateEntry oracleThrottle cfgBase entryA).persists = 0) :=
  ⟨fun _ _ => rfl,
   (retry_exhaustion oracleThrottle cfgBase entryA (fun _ _ => rfl)).2 rfl⟩

/-- C8 counterexample: the first failed attempt happens at shared counter
value 0, for which the claim's generic formula predicts a wait of
`2000·0 = 0` ms; the code sleeps 2000 ms (`2000·retries` is computed
after the increment). -/
theorem backoff_formula_cex :
    (translateEntry oracleGenOnce cfgBase entryA).sleeps = [2000] ∧
    (2000 : ℚ) ≠ 2000 * 0 := by
  refine ⟨?_, by norm_num⟩
  simp [translateEntry, translateEntryLoop, maxRetriesEff, cfgBase, falsyOrNat,
        falsyOrQ, oracleGenOnce, outGeneric, entryA]

/-- C8 amended: at shared counter value `retries`, a throttling-shaped
failure sleeps `retryAfter || 5000·2^retries` and then increments the
counter; a generic failure increments the counter first and sleeps
`2000·(retries+1)` when attempts remain, or sleeps not at all and falls
back when the incremented counter reaches the budget; each failed
attempt increments the shared counter exactly once. -/
theorem backoff_step (oracle : Nat → ProvOutcome) (M : Nat) (msgid : Str)
    (cur : EntryRun) (fuel retries callIdx : Nat) (h : retries < M) :
    (∀ ra, oracle callIdx = .err true ra →
      translateEntryLoop oracle M msgid (fuel + 1) cur retries callIdx =
        translateEntryLoop oracle M msgid fuel
          { cur with rateLimitHits := cur.rateLimitHits + 1,
                     sleeps := cur.sleeps ++ [falsyOrQ ra (5000 * 2 ^ retries)] }
          (retries + 1) (callIdx + 1)) ∧
    (∀ ra, oracle callIdx = .err false ra → retries + 1 < M →
      translateEntryLoop oracle M msgid (fuel + 1) cur retries callIdx =
        translateEntryLoop oracle M msgid fuel
          { cur with sleeps := cur.sleeps ++ [2000 * (retries + 1 : ℚ)] }
          (retries + 1) (callIdx + 1)) ∧
    (∀ ra, oracle callIdx = .err false ra → ¬ retries + 1 < M →
      translateEntryLoop oracle M msgid (fuel + 1) cur retries callIdx =
        { cur with msgstr := msgid, failedInc := cur.failedInc + 1,
                   persists := cur.persists + 1 }) := by
  refine ⟨?_, ?_, ?_⟩
  · intro ra hra
    rw [translateEntryLoop]
    simp [h, hra]
  · intro ra hra hlt
    rw [translateEntryLoop]
    simp [h, hra, hlt]
  · intro ra hra hge
    rw [translateEntryLoop]
    simp [h, hra, hge]

/-- Witness for C8 amended: the first throttling-shaped failure of a run
with budget 3 sleeps `5000·2^0` and moves the counter to 1. -/
theorem backoff_step_witness :
    (0 : Nat) < 3 ∧
    translateEntryLoop oracleThrottle 3 ['a'] 3 runA 0 0 =
      translateEntryLoop oracleThrottle 3 ['a'] 2
        { runA with rateLimitHits := runA.rateLimitHits + 1,
                    sleeps := runA.sleeps ++ [falsyOrQ none (5000 * 2 ^ 0)] } 1 1 :=
  ⟨by decide,
   (backoff_step oracleThrottle 3 ['a'] runA 2 0 0 (by decide)).1 none rfl⟩

/-! ### The escape chain in block form -/

theorem cmap_append (f : Char → Str) (a b : Str) :
    cmap f (a ++ b) = cmap f a ++ cmap f b := by
  induction a with
  | nil => rfl
  | cons c r ih => simp [cmap, ih]

theorem escChar1_append (x : Char) (rep : Str) (a b : Str) :
    escChar1 x rep (a ++ b) = escChar1 x rep a ++ escChar1 x rep b := by
  induction a with
  | nil => rfl
  | cons c r ih =>
    simp only [List.cons_append, escChar1]
    split_ifs <;> simp [ih]

theorem escBS_cmap (s : Str) : escBS s = cmap e0Block s := by
  induction s with
  | nil => rfl
  | cons c r ih =>
    show escChar1 '\\' ['\\', '\\'] (c :: r) = e0Block c ++ cmap e0Block r
    rw [escChar1]
    by_cases h : c = '\\' <;> simp [h, e0Block, ← ih] <;> rfl

theorem escQ_cmap (s : Str) : escQ (cmap e0Block s) = cmap e1Block s := by
  induction s with
  | nil => rfl
  | cons c r ih =>
    show escChar1 '"' ['\\', '"'] (e0Block c ++ cmap e0Block r)
      = e1Block c ++ cmap e1Block r
    rw [show escQ = escChar1 '"' ['\\', '"'] from rfl] at ih
    rw [escChar1_append, ih]
    by_cases h1 : c = '\\'
    · subst h1
      simp [e0Block, e1Block, escChar1]
    · by_cases h2 : c = '"'
      · subst h2
        simp [e0Block, e1Block, escChar1]
      · simp [e0Block, e1Block, h1, h2, escChar1]

theorem escNL_cmap (s : Str) : escNL (cmap e1Block s) = cmap e2Block s := by
  induction s with
  | nil => rfl
  | cons c r ih =>
    show escChar1 '\n' ['\\', 'n'] (e1Block c ++ cmap e1Block r)
      = e2Block c ++ cmap e2Block r
    rw [show escNL = escChar1 '\n' ['\\', 'n'] from rfl] at ih
    rw [escChar1_append, ih]
    by_cases h1 : c = '\\'
    · subst h1
      simp [e1Block, e2Block, escChar1]
    · by_cases h2 : c = '"'
      · subst h2
        simp [e1Block, e2Block, escChar1]
      · by_cases h3 : c = '\n'
        · subst h3
          simp [e1Block, e2Block, escChar1]
        · simp [e1Block, e2Block, h1, h2, h3, escChar1]

theorem escTab_cmap (s : Str) : escTab (cmap e2Block s) = cmap escBlock s := by
  induction s with
  | nil => rfl
  | cons c r ih =>
    show escChar1 '\t' ['\\', 't'] (e2Block c ++ cmap e2Block r)
      = escBlock c ++ cmap escBlock r
    rw [show escTab = escChar1 '\t' ['\\', 't'] from rfl] at ih
    rw [escChar1_append, ih]
    by_cases h1 : c = '\\'
    · subst h1
      simp [e2Block, escBlock, escChar1]
    · by_cases h2 : c = '"'
      · subst h2
        simp [e2Block, escBlock, escChar1]
      · by_cases h3 : c = '\n'
        · subst h3
          simp [e2Block, escBlock, escChar1]
        · by_cases h4 : c = '\t'
          · subst h4
            simp [e2Block, escBlock, escChar1]
          · simp [e2Block, escBlock, h1, h2, h3, h4, escChar1]

/-- The chain `escapeString` is the per-character block expansion. -/
theorem escapeString_cmap (s : Str) : escapeString s = cmap escBlock s := by
  rw [escapeString, show escBS = escChar1 '\\' ['\\', '\\'] from rfl]
  rw [show escChar1 '\\' ['\\', '\\'] s = cmap e0Block s from escBS_cmap s]
  rw [show escQ (cmap e0Block s) = cmap e1Block s from escQ_cmap s]
  rw [show escNL (cmap e1Block s) = cmap e2Block s from escNL_cmap s]
  exact escTab_cmap s

/-! ### The unescape chain over block forms -/

theorem unescPair_cons_ne (x y c : Char) (s : Str) (h : ¬ c = '\\') :
    unescPair x y (c :: s) = c :: unescPair x y s := by
  cases s with
  | nil => rfl
  | cons d r => simp [unescPair, h]

theorem unescPair_bs (x y : Char) (s : Str) (h : s.head? ≠ some x) :
    unescPair x y ('\\' :: s) = '\\' :: unescPair x y s := by
  cases s with
  | nil => rfl
  | cons d r =>
    have hd : ¬ d = x := by
      intro hdx
      exact h (by simp [hdx])
    simp [unescPair, hd]

theorem unescPair_hit (x y : Char) (s : Str) :
    unescPair x y ('\\' :: x :: s) = y :: unescPair x y s := by
  simp [unescPair]

theorem unescPair_ne_nil (x y : Char) (c : Char) (s : Str) :
    unescPair x y (c :: s) ≠ [] := by
  cases s with
  | nil => simp [unescPair]
  | cons d r =>
    rw [unescPair]
    split_ifs <;> simp

theorem noBSnt_tail (c : Char) (r : Str) (h : noBSnt (c :: r) = true) :
    noBSnt r = true := by
  cases r with
  | nil => rfl
  | cons d r' =>
    rw [noBSnt, Bool.and_eq_true] at h
    exact h.2

theorem noBSnt_head (d : Char) (r : Str) (h : noBSnt ('\\' :: d :: r) = true) :
    ¬ d = 'n' ∧ ¬ d = 't' := by
  rw [noBSnt, Bool.and_eq_true] at h
  have := h.1
  simp at this
  exact this

/-- Heads of block streams: the first character of `cmap f r` is the
first character of the first block. -/
theorem cmap_head_cons (f : Char → Str) (d : Char) (r : Str) (a : Char) (b : Str)
    (hf : f d = a :: b) : (cmap f (d :: r)).head? = some a := by
  simp [cmap, hf]

theorem unescNL_blocks (s : Str) (h : noBSnt s = true) :
    unescNL (cmap escBlock s) = cmap ue1Block s := by
  induction s with
  | nil => rfl
  | cons c r ih =>
    have hr := noBSnt_tail c r h
    rw [show unescNL = unescPair 'n' '\n' from rfl] at ih
    show unescPair 'n' '\n' (cmap escBlock (c :: r)) = cmap ue1Block (c :: r)
    by_cases h1 : c = '\\'
    · subst h1
      have hblock : cmap escBlock ('\\' :: r) = '\\' :: '\\' :: cmap escBlock r := by
        simp [cmap, escBlock]
      rw [hblock]
      have hstep1 : unescPair 'n' '\n' ('\\' :: '\\' :: cmap escBlock r)
          = '\\' :: unescPair 'n' '\n' ('\\' :: cmap escBlock r) := by
        simp [unescPair]
      rw [hstep1]
      have hhead : (cmap escBlock r).head? ≠ some 'n' := by
        cases r with
        | nil => simp [cmap]
        | cons d r' =>
          obtain ⟨hdn, hdt⟩ := noBSnt_head d r' h
          by_cases hd1 : d = '\\'
          · rw [cmap_head_cons escBlock d r' '\\' ['\\'] (by simp [escBlock, hd1])]
            simp
          · by_cases hd2 : d = '"'
            · rw [cmap_head_cons escBlock d r' '\\' ['"'] (by simp [escBlock, hd1, hd2])]
              simp
            · by_cases hd3 : d = '\n'
              · rw [cmap_head_cons escBlock d r' '\\' ['n'] (by simp [escBlock, hd1, hd2, hd3])]
                simp
              · by_cases hd4 : d = '\t'
                · rw [cmap_head_cons escBlock d r' '\\' ['t'] (by simp [escBlock, hd1, hd2, hd3, hd4])]
                  simp
                · rw [cmap_head_cons escBlock d r' d [] (by simp [escBlock, hd1, hd2, hd3, hd4])]
                  simp [hdn]
      rw [unescPair_bs _ _ _ hhead, ih hr]
      simp [cmap, ue1Block]
    · by_cases h2 : c = '"'
      · subst h2
        have hblock : cmap escBlock ('"' :: r) = '\\' :: '"' :: cmap escBlock r := by
          simp [cmap, escBlock]
        rw [hblock]
        have hstep1 : unescPair 'n' '\n' ('\\' :: '"' :: cmap escBlock r)
            = '\\' :: unescPair 'n' '\n' ('"' :: cmap escBlock r) := by
          simp [unescPair]
        rw [hstep1, unescPair_cons_ne _ _ _ _ (by decide), ih hr]
        simp [cmap, ue1Block]
      · by_cases h3 : c = '\n'
        · subst h3
          have hblock : cmap escBlock ('\n' :: r) = '\\' :: 'n' :: cmap escBlock r := by
            simp [cmap, escBlock]
          rw [hblock, unescPair_hit, ih hr]
          simp [cmap, ue1Block]
        · by_cases h4 : c = '\t'
          · subst h4
            have hblock : cmap escBlock ('\t' :: r) = '\\' :: 't' :: cmap escBlock r := by
              simp [cmap, escBlock]
            rw [hblock]
            have hstep1 : unescPair 'n' '\n' ('\\' :: 't' :: cmap escBlock r)
                = '\\' :: unescPair 'n' '\n' ('t' :: cmap escBlock r) := by
              simp [unescPair]
            rw [hstep1, unescPair_cons_ne _ _ _ _ (by decide), ih hr]
            simp [cmap, ue1Block]
          · have hblock : cmap escBlock (c :: r) = c :: cmap escBlock r := by
              simp [cmap, escBlock, h1, h2, h3, h4]
            rw [hblock, unescPair_cons_ne _ _ _ _ h1, ih hr]
            simp [cmap, ue1Block, h1, h2, h3, h4]

theorem unescTab_blocks (s : Str) (h : noBSnt s = true) :
    unescTab (cmap ue1Block s) = cmap ue2Block s := by
  induction s with
  | nil => rfl
  | cons c r ih =>
    have hr := noBSnt_tail c r h
    rw [show unescTab = unescPair 't' '\t' from rfl] at ih
    show unescPair 't' '\t' (cmap ue1Block (c :: r)) = cmap ue2Block (c :: r)
    by_cases h1 : c = '\\'
    · subst h1
      have hblock : cmap ue1Block ('\\' :: r) = '\\' :: '\\' :: cmap ue1Block r := by
        simp [cmap, ue1Block]
      rw [hblock]
      have hstep1 : unescPair 't' '\t' ('\\' :: '\\' :: cmap ue1Block r)
          = '\\' :: unescPair 't' '\t' ('\\' :: cmap ue1Block r) := by
        simp [unescPair]
      rw [hstep1]
      have hhead : (cmap ue1Block r).head? ≠ some 't' := by
        cases r with
        | nil => simp [cmap]
        | cons d r' =>
          obtain ⟨hdn, hdt⟩ := noBSnt_head d r' h
          by_cases hd1 : d = '\\'
          · rw [cmap_head_cons ue1Block d r' '\\' ['\\'] (by simp [cmap, ue1Block, hd1])]
            simp
          · by_cases hd2 : d = '"'
            · rw [cmap_head_cons ue1Block d r' '\\' ['"'] (by simp [cmap, ue1Block, hd1, hd2])]
              simp
            · by_cases hd4 : d = '\t'
              · rw [cmap_head_cons ue1Block d r' '\\' ['t'] (by simp [cmap, ue1Block, hd1, hd2, hd4])]
                simp
              · rw [cmap_head_cons ue1Block d r' d [] (by simp [cmap, ue1Block, hd1, hd2, hd4])]
                simp [hdt]
      rw [unescPair_bs _ _ _ hhead, ih hr]
      simp [cmap, ue2Block]
    · by_cases h2 : c = '"'
      · subst h2
        have hblock : cmap ue1Block ('"' :: r) = '\\' :: '"' :: cmap ue1Block r := by
          simp [cmap, ue1Block]
        rw [hblock]
        have hstep1 : unescPair 't' '\t' ('\\' :: '"' :: cmap ue1Block r)
            = '\\' :: unescPair 't' '\t' ('"' :: cmap ue1Block r) := by
          simp [unescPair]
        rw [hstep1, unescPair_cons_ne _ _ _ _ (by decide), ih hr]
        simp [cmap, ue2Block]
      · by_cases h4 : c = '\t'
        · subst h4
          have hblock : cmap ue1Block ('\t' :: r) = '\\' :: 't' :: cmap ue1Block r := by
            simp [cmap, ue1Block]
          rw [hblock, unescPair_hit, ih hr]
          simp [cmap, ue2Block]
        · have hblock : cmap ue1Block (c :: r) = c :: cmap ue1Block r := by
            simp [cmap, ue1Block, h1, h2, h4]
          rw [hblock, unescPair_cons_ne _ _ _ _ h1, ih hr]
          simp [cmap, ue2Block, h1, h2, h4]

theorem unescQ_blocks (s : Str) : unescQ (cmap ue2Block s) = cmap ue3Block s := by
  induction s with
  | nil => rfl
  | cons c r ih =>
    rw [show unescQ = unescPair '"' '"' from rfl] at ih
    show unescPair '"' '"' (cmap ue2Block (c :: r)) = cmap ue3Block (c :: r)
    by_cases h1 : c = '\\'
    · subst h1
      have hblock : cmap ue2Block ('\\' :: r) = '\\' :: '\\' :: cmap ue2Block r := by
        simp [cmap, ue2Block]
      rw [hblock]
      have hstep1 : unescPair '"' '"' ('\\' :: '\\' :: cmap ue2Block r)
          = '\\' :: unescPair '"' '"' ('\\' :: cmap ue2Block r) := by
        simp [unescPair]
      rw [hstep1]
      have hhead : (cmap ue2Block r).head? ≠ some '"' := by
        cases r with
        | nil => simp [cmap]
        | cons d r' =>
          by_cases hd1 : d = '\\'
          · rw [cmap_head_cons ue2Block d r' '\\' ['\\'] (by simp [cmap, ue2Block, hd1])]
            simp
          · by_cases hd2 : d = '"'
            · rw [cmap_head_cons ue2Block d r' '\\' ['"'] (by simp [cmap, ue2Block, hd1, hd2])]
              simp
            · rw [cmap_head_cons ue2Block d r' d [] (by simp [cmap, ue2Block, hd1, hd2])]
              simp [hd2]
      rw [unescPair_bs _ _ _ hhead, ih]
      simp [cmap, ue3Block]
    · by_cases h2 : c = '"'
      · subst h2
        have hblock : cmap ue2Block ('"' :: r) = '\\' :: '"' :: cmap ue2Block r := by
          simp [cmap, ue2Block]
        rw [hblock, unescPair_hit, ih]
        simp [cmap, ue3Block]
      · have hblock : cmap ue2Block (c :: r) = c :: cmap ue2Block r := by
          simp [cmap, ue2Block, h1, h2]
        rw [hblock, unescPair_cons_ne _ _ _ _ h1, ih]
        simp [cmap, ue3Block, h1]

theorem unescBS_blocks (s : Str) : unescBS (cmap ue3Block s) = s := by
  induction s with
  | nil => rfl
  | cons c r ih =>
    rw [show unescBS = unescPair '\\' '\\' from rfl] at ih
    show unescPair '\\' '\\' (cmap ue3Block (c :: r)) = c :: r
    by_cases h1 : c = '\\'
    · subst h1
      have hblock : cmap ue3Block ('\\' :: r) = '\\' :: '\\' :: cmap ue3Block r := by
        simp [cmap, ue3Block]
      rw [hblock, unescPair_hit, ih]
    · have hblock : cmap ue3Block (c :: r) = c :: cmap ue3Block r := by
        simp [cmap, ue3Block, h1]
      rw [hblock, unescPair_cons_ne _ _ _ _ h1, ih]

/-- On strings with no literal backslash-`n`/`t` pair, the unescaping
chain inverts the escaping chain. -/
theorem unescapeString_escapeString (s : Str) (h : noBSnt s = true) :
    unescapeString (escapeString s) = s := by
  rw [escapeString_cmap, unescapeString]
  rw [show unescNL (cmap escBlock s) = cmap ue1Block s from unescNL_blocks s h]
  rw [show unescTab (cmap ue1Block s) = cmap ue2Block s from unescTab_blocks s h]
  rw [show unescQ (cmap ue2Block s) = cmap ue3Block s from unescQ_blocks s]
  exact unescBS_blocks s

/-- Unescaping never empties a non-empty string. -/
theorem unescapeString_ne_nil (s : Str) (h : s ≠ []) : unescapeString s ≠ [] := by
  obtain ⟨c, r, rfl⟩ : ∃ c r, s = c :: r := by
    cases s with
    | nil => exact absurd rfl h
    | cons c r => exact ⟨c, r, rfl⟩
  rw [unescapeString]
  have h1 : unescNL (c :: r) ≠ [] := unescPair_ne_nil _ _ _ _
  obtain ⟨c1, r1, e1⟩ : ∃ a b, unescNL (c :: r) = a :: b := by
    cases hx : unescNL (c :: r) with
    | nil => exact absurd hx h1
    | cons a b => exact ⟨a, b, rfl⟩
  rw [e1]
  have h2 : unescTab (c1 :: r1) ≠ [] := unescPair_ne_nil _ _ _ _
  obtain ⟨c2, r2, e2⟩ : ∃ a b, unescTab (c1 :: r1) = a :: b := by
    cases hx : unescTab (c1 :: r1) with
    | nil => exact absurd hx h2
    | cons a b => exact ⟨a, b, rfl⟩
  rw [e2]
  have h3 : unescQ (c2 :: r2) ≠ [] := unescPair_ne_nil _ _ _ _
  obtain ⟨c3, r3, e3⟩ : ∃ a b, unescQ (c2 :: r2) = a :: b := by
    cases hx : unescQ (c2 :: r2) with
    | nil => exact absurd hx h3
    | cons a b => exact ⟨a, b, rfl⟩
  rw [e3]
  exact unescPair_ne_nil _ _ _ _

/-- Escaped text never contains a real newline. -/
theorem escapeString_no_nl (s : Str) : '\n' ∉ escapeString s := by
  rw [escapeString_cmap]
  induction s with
  | nil => simp [cmap]
  | cons c r ih =>
    simp only [cmap, List.mem_append]
    rintro (h | h)
    · unfold escBlock at h
      split_ifs at h with a1 a2 a3 a4 <;> simp_all
      exact a3 h.symm
    · exact ih h

/-! ### Serialized text as lines -/

theorem splitNL_append (a b : Str) (ha : '\n' ∉ a) :
    splitNL (a ++ '\n' :: b) = a :: splitNL b := by
  induction a with
  | nil => simp [splitNL]
  | cons c r ih =>
    have hc : ¬ c = '\n' := by
      intro h
      exact ha (by simp [h])
    have hr : '\n' ∉ r := fun h => ha (List.mem_cons_of_mem _ h)
    simp [splitNL, hc, ih hr]

theorem splitNL_lines (lines : List Str) (h : ∀ l ∈ lines, '\n' ∉ l) :
    splitNL ((lines.map (fun l => l ++ ['\n'])).flatten) = lines ++ [[]] := by
  induction lines with
  | nil => rfl
  | cons l ls ih =>
    simp only [List.map_cons, List.flatten_cons]
    have hassoc : l ++ ['\n'] ++ ((ls.map (fun l => l ++ ['\n'])).flatten)
        = l ++ '\n' :: ((ls.map (fun l => l ++ ['\n'])).flatten) := by
      simp
    rw [hassoc, splitNL_append _ _ (h l (by simp)), ih (fun x hx => h x (by simp [hx]))]
    simp

theorem serializeEntry_lines (e : TranslationEntry) :
    serializeEntry e = ((entryLines e).map (fun l => l ++ ['\n'])).flatten := by
  cases hc : e.comments with
  | none => simp [serializeEntry, entryLines, hc, List.append_assoc]
  | some cs => simp [serializeEntry, entryLines, hc, List.append_assoc]

theorem serialize_lines (c : PoFile) :
    serialize c = ((serLines c).map (fun l => l ++ ['\n'])).flatten := by
  have hhdr : ∀ hdr : List (Str × Str),
      (hdr.map serializeHeaderField).flatten
        = ((hdr.map headerLine).map (fun l => l ++ ['\n'])).flatten := by
    intro hdr
    induction hdr with
    | nil => rfl
    | cons kv t ih =>
      simp only [List.map_cons, List.flatten_cons, ih]
      congr 1
      simp [serializeHeaderField, headerLine, List.append_assoc]
  have hent : ∀ es : List TranslationEntry,
      (es.map serializeEntry).flatten
        = (((es.map entryLines).flatten).map (fun l => l ++ ['\n'])).flatten := by
    intro es
    induction es with
    | nil => rfl
    | cons e t ih =>
      simp only [List.map_cons, List.flatten_cons, List.map_append, List.flatten_append, ih]
      congr 1
      exact serializeEntry_lines e
  show hdrMsgidLine ++ hdrMsgstrLine ++ (c.header.map serializeHeaderField).flatten
      ++ ['\n'] ++ (c.entries.map serializeEntry).flatten = _
  rw [hhdr, hent]
  unfold serLines preLines
  simp only [List.append_assoc, List.map_append, List.flatten_append, List.map_cons,
             List.flatten_cons, List.map_nil, List.flatten_nil]
  rw [show hdrMsgidLine = hdrMsgid0 ++ ['\n'] from rfl,
      show hdrMsgstrLine = hdrMsgstr0 ++ ['\n'] from rfl]
  simp [List.append_assoc]

/-! ### Line-shape helpers for the parse run -/

theorem isPre_self_append (p t : Str) : isPre p (p ++ t) = true := by
  induction p with
  | nil => rfl
  | cons c r ih => simp [isPre, ih]

theorem endsWithChar_concat (c : Char) (s : Str) : endsWithChar c (s ++ [c]) = true := by
  induction s with
  | nil => simp [endsWithChar]
  | cons a r ih =>
    cases hx : r ++ [c] with
    | nil => exact absurd hx (by simp)
    | cons b t =>
      show endsWithChar c (a :: (r ++ [c])) = true
      rw [hx]
      show endsWithChar c (b :: t) = true
      rw [← hx]
      exact ih

theorem dropLast_concat_eq (s : Str) (c : Char) : (s ++ [c]).dropLast = s := by
  simp

theorem parseString_quoted (inner : Str) :
    parseString ('"' :: (inner ++ ['"'])) = unescapeString inner := by
  unfold parseString
  rw [if_pos]
  · rw [show ('"' :: (inner ++ ['"'])).drop 1 = inner ++ ['"'] from rfl]
    rw [dropLast_concat_eq]
  · constructor
    · simp [isPre]
    · show endsWithChar '"' (('"' :: inner) ++ ['"']) = true
      exact endsWithChar_concat _ _

theorem jsTrim_id (c d : Char) (mid : Str) (hc : isWs c = false) (hd : isWs d = false) :
    jsTrim (c :: (mid ++ [d])) = c :: (mid ++ [d]) := by
  unfold jsTrim
  rw [List.dropWhile_cons]
  simp only [hc, Bool.false_eq_true, if_false, ite_false]
  have hrev : (c :: (mid ++ [d])).reverse = d :: (mid.reverse ++ [c]) := by
    simp
  rw [hrev, List.dropWhile_cons]
  simp only [hd, Bool.false_eq_true, if_false, ite_false]
  simp

theorem truthyS_some_ne (m : Str) (h : m ≠ []) : truthyS (some m) = true := by
  cases m with
  | nil => exact absurd rfl h
  | cons a b => rfl

theorem kwMsgid_chars : kwMsgid = ['m', 's', 'g', 'i', 'd', ' '] := rfl

theorem kwMsgstr_chars : kwMsgstr = ['m', 's', 'g', 's', 't', 'r', ' '] := rfl

theorem fldMsgid_chars : fldMsgid = ['m', 's', 'g', 'i', 'd', ' ', '"'] := rfl

theorem fldMsgstr_chars : fldMsgstr = ['m', 's', 'g', 's', 't', 'r', ' ', '"'] := rfl

theorem isPre_cons_ne (a b : Char) (p X : Str) (h : ¬ a = b) :
    isPre (a :: p) (b :: X) = false := by
  simp [isPre, h]

theorem isPre_kwMsgid_msgstr (X : Str) :
    isPre kwMsgid ('m' :: 's' :: 'g' :: 's' :: X) = false := by
  simp [isPre, kwMsgid_chars]

/-! ### Single parse steps on serialized lines -/

theorem parseStep_comment (st : PState) (i : Nat) (cm : Str) (h : WFComment cm) :
    parseStep st i cm = { st with comments := st.comments ++ [cm] } := by
  obtain ⟨hne, hpre, _, htrim⟩ := h
  unfold parseStep
  simp [htrim, hne, hpre]

theorem parseStep_blank_skip (st : PState) (i : Nat)
    (h1 : truthyS st.curMsgid = false) (h2 : truthyS st.curMsgstr = false) :
    parseStep st i [] = st := by
  unfold parseStep
  simp [jsTrim, h1, h2]

theorem parseStep_blank_flush (st : PState) (i : Nat)
    (h : truthyS st.curMsgid = true ∨ truthyS st.curMsgstr = true) :
    parseStep st i [] =
      { st with entries := finishEntry st, curMsgid := none, curMsgstr := none,
                curLine := none, inMsgid := false, inMsgstr := false, comments := [] } := by
  unfold parseStep
  rcases h with h | h <;> simp [jsTrim, h]

theorem parseStep_msgid (st : PState) (i : Nat) (m : Str) (hm : noBSnt m = true)
    (hne : m ≠ []) :
    parseStep st i (fldMsgid ++ (escapeString m ++ ['"'])) =
      { st with inMsgid := true, inMsgstr := false, curMsgid := some m,
                curLine := some (i + 1), isHeader := false } := by
  have hln : jsTrim (fldMsgid ++ (escapeString m ++ ['"']))
      = kwMsgid ++ ('"' :: (escapeString m ++ ['"'])) := by
    have h1 : fldMsgid ++ (escapeString m ++ ['"'])
        = 'm' :: ((['s', 'g', 'i', 'd', ' ', '"'] ++ escapeString m) ++ ['"']) := by
      simp [fldMsgid_chars]
    rw [h1, jsTrim_id 'm' '"' _ (by decide) (by decide)]
    simp [kwMsgid_chars]
  unfold parseStep
  rw [hln]
  have hnn : kwMsgid ++ ('"' :: (escapeString m ++ ['"'])) ≠ [] := by
    simp [kwMsgid_chars]
  have hnh : isPre ['#'] (kwMsgid ++ ('"' :: (escapeString m ++ ['"']))) = false := by
    rw [kwMsgid_chars]
    exact isPre_cons_ne _ _ _ _ (by decide)
  have hkw : isPre kwMsgid (kwMsgid ++ ('"' :: (escapeString m ++ ['"']))) = true :=
    isPre_self_append _ _
  have hdrop : (kwMsgid ++ ('"' :: (escapeString m ++ ['"']))).drop 6
      = '"' :: (escapeString m ++ ['"']) := by
    rw [show (6 : Nat) = kwMsgid.length from rfl, List.drop_left]
  have hps : parseString ('"' :: (escapeString m ++ ['"'])) = m := by
    rw [parseString_quoted, unescapeString_escapeString m hm]
  rw [if_neg hnn]
  rw [if_neg (by simp [hnh])]
  rw [if_pos hkw]
  rw [hdrop, hps]
  rw [if_neg (show ¬ (st.isHeader = true ∧ m = []) from fun hx => hne hx.2)]

theorem parseStep_msgstr (st : PState) (i : Nat) (m : Str) (hm : noBSnt m = true)
    (hish : st.isHeader = false) :
    parseStep st i (fldMsgstr ++ (escapeString m ++ ['"'])) =
      { st with inMsgstr := true, inMsgid := false, curMsgstr := some m } := by
  have hln : jsTrim (fldMsgstr ++ (escapeString m ++ ['"']))
      = kwMsgstr ++ ('"' :: (escapeString m ++ ['"'])) := by
    have h1 : fldMsgstr ++ (escapeString m ++ ['"'])
        = 'm' :: ((['s', 'g', 's', 't', 'r', ' ', '"'] ++ escapeString m) ++ ['"']) := by
      simp [fldMsgstr_chars]
    rw [h1, jsTrim_id 'm' '"' _ (by decide) (by decide)]
    simp [kwMsgstr_chars]
  unfold parseStep
  rw [hln]
  have hnn : kwMsgstr ++ ('"' :: (escapeString m ++ ['"'])) ≠ [] := by
    simp [kwMsgstr_chars]
  have hnh : isPre ['#'] (kwMsgstr ++ ('"' :: (escapeString m ++ ['"']))) = false := by
    rw [kwMsgstr_chars]
    exact isPre_cons_ne _ _ _ _ (by decide)
  have hnid : isPre kwMsgid (kwMsgstr ++ ('"' :: (escapeString m ++ ['"']))) = false := by
    rw [kwMsgstr_chars]
    exact isPre_kwMsgid_msgstr _
  have hkw : isPre kwMsgstr (kwMsgstr ++ ('"' :: (escapeString m ++ ['"']))) = true :=
    isPre_self_append _ _
  have hdrop : (kwMsgstr ++ ('"' :: (escapeString m ++ ['"']))).drop 7
      = '"' :: (escapeString m ++ ['"']) := by
    rw [show (7 : Nat) = kwMsgstr.length from rfl, List.drop_left]
  have hps : parseString ('"' :: (escapeString m ++ ['"'])) = m := by
    rw [parseString_quoted, unescapeString_escapeString m hm]
  rw [if_neg hnn]
  rw [if_neg (by simp [hnh])]
  rw [if_neg (by simp [hnid])]
  rw [if_pos hkw]
  rw [hdrop, hps]
  rw [if_neg (show ¬ (st.isHeader = true ∧ st.curMsgid = some []) from by
        rintro ⟨hh, _⟩
        rw [hish] at hh
        exact Bool.false_ne_true hh)]

theorem parseStep_header_cont (st : PState) (i : Nat) (kv : Str × Str)
    (hmid : st.inMsgid = false) (hmstr : st.inMsgstr = true) :
    parseStep st i (headerLine kv) =
      { st with curMsgstr := some (st.curMsgstr.getD []
          ++ unescapeString ((kv.1 ++ (':' :: ' ' :: kv.2)) ++ ['\\', 'n'])) } := by
  have hshape : headerLine kv
      = '"' :: (((kv.1 ++ (':' :: ' ' :: kv.2)) ++ ['\\', 'n']) ++ ['"']) := by
    simp [headerLine]
  have hln : jsTrim (headerLine kv) = headerLine kv := by
    rw [hshape, jsTrim_id '"' '"' _ (by decide) (by decide)]
  have hnn : headerLine kv ≠ [] := by
    simp [headerLine]
  have hnh : isPre ['#'] (headerLine kv) = false :=
    isPre_cons_ne _ _ _ _ (by decide)
  have hnid : isPre kwMsgid (headerLine kv) = false := by
    rw [kwMsgid_chars]
    exact isPre_cons_ne _ _ _ _ (by decide)
  have hnstr : isPre kwMsgstr (headerLine kv) = false := by
    rw [kwMsgstr_chars]
    exact isPre_cons_ne _ _ _ _ (by decide)
  have hq : isPre ['"'] (headerLine kv) = true := by
    simp [isPre, headerLine]
  have hend : endsWithChar '"' (headerLine kv) = true := by
    rw [hshape]
    rw [show ('"' :: (((kv.1 ++ (':' :: ' ' :: kv.2)) ++ ['\\', 'n']) ++ ['"']))
        = ('"' :: ((kv.1 ++ (':' :: ' ' :: kv.2)) ++ ['\\', 'n'])) ++ ['"'] from by simp]
    exact endsWithChar_concat _ _
  have hps : parseString (headerLine kv)
      = unescapeString ((kv.1 ++ (':' :: ' ' :: kv.2)) ++ ['\\', 'n']) := by
    rw [hshape, parseString_quoted]
  unfold parseStep
  rw [hln]
  rw [if_neg hnn]
  rw [if_neg (by simp [hnh])]
  rw [if_neg (by simp [hnid])]
  rw [if_neg (by simp [hnstr])]
  rw [if_pos (show isPre ['"'] (headerLine kv) = true ∧ endsWithChar '"' (headerLine kv) = true
        from ⟨hq, hend⟩)]
  rw [hps, hmid, hmstr]
  simp

/-! ### Runs of parse steps -/

theorem parseLines_append (st : PState) (i : Nat) (a b : List Str) :
    parseLines st i (a ++ b) = parseLines (parseLines st i a) (i + a.length) b := by
  induction a generalizing st i with
  | nil => simp [parseLines]
  | cons l ls ih =>
    show parseLines (parseStep st i l) (i + 1) (ls ++ b)
      = parseLines (parseLines (parseStep st i l) (i + 1) ls) (i + (ls.length + 1)) b
    rw [ih]
    congr 1
    omega

theorem parseLines_comments (cms : List Str) :
    ∀ st i rest, (∀ cm ∈ cms, WFComment cm) →
    parseLines st i (cms ++ rest)
      = parseLines { st with comments := st.comments ++ cms } (i + cms.length) rest := by
  induction cms with
  | nil =>
    intro st i rest _
    simp [parseLines]
  | cons cm cms ih =>
    intro st i rest h
    show parseLines (parseStep st i cm) (i + 1) (cms ++ rest) = _
    rw [parseStep_comment st i cm (h cm (by simp))]
    rw [ih _ _ _ (fun x hx => h x (by simp [hx]))]
    congr 1
    · simp
    · simp only [List.length_cons]
      omega

theorem parseLines_header_cont (kvs : List (Str × Str)) :
    ∀ st i rest pre, st.inMsgid = false → st.inMsgstr = true → st.curMsgstr = some pre →
    parseLines st i (kvs.map headerLine ++ rest)
      = parseLines { st with curMsgstr := some (pre ++ hAcc kvs) } (i + kvs.length) rest := by
  induction kvs with
  | nil =>
    intro st i rest pre _ _ hcur
    have hst : ({ st with curMsgstr := some (pre ++ hAcc []) } : PState) = st := by
      rw [show hAcc [] = [] from rfl, List.append_nil, ← hcur]
    rw [hst]
    simp [parseLines]
  | cons kv kvs ih =>
    intro st i rest pre hmid hmstr hcur
    show parseLines (parseStep st i (headerLine kv)) (i + 1) (kvs.map headerLine ++ rest) = _
    rw [parseStep_header_cont st i kv hmid hmstr]
    rw [hcur]
    simp only [Option.getD_some]
    rw [ih { st with curMsgstr := some (pre
          ++ unescapeString ((kv.1 ++ (':' :: ' ' :: kv.2)) ++ ['\\', 'n'])) }
        (i + 1) rest
        (pre ++ unescapeString ((kv.1 ++ (':' :: ' ' :: kv.2)) ++ ['\\', 'n']))
        (by simp [hmid]) (by simp [hmstr]) rfl]
    congr 1
    · simp [hAcc, List.append_assoc]
    · simp only [List.length_cons]
      omega

/-- Parsing the serialized block of one well-formed entry appends
exactly that entry (with the parse-time source line) and resets the
accumulator. -/
theorem parseLines_entry (e : TranslationEntry) (he : WFEntry e) (E : List TranslationEntry)
    (H : List (Str × Str)) (b1 b2 : Bool) (n : Nat) (rest : List Str) :
    parseLines (entryStF E H b1 b2) n (entryLines e ++ rest)
      = parseLines (entryStF (E ++ [peOf e n]) H false false) (n + (entryLines e).length) rest := by
  obtain ⟨hne, hid, hstr, hcom⟩ := he
  cases hc : e.comments with
  | none =>
    rw [show entryLines e = [fldMsgid ++ (escapeString e.msgid ++ ['"']),
          fldMsgstr ++ (escapeString e.msgstr ++ ['"']), []]
        from by simp [entryLines, hc, List.append_assoc]]
    simp only [List.cons_append, List.nil_append, parseLines]
    rw [parseStep_msgid (entryStF E H b1 b2) n e.msgid hid hne]
    rw [parseStep_msgstr _ _ e.msgstr hstr rfl]
    rw [parseStep_blank_flush _ _ (Or.inl (truthyS_some_ne e.msgid hne))]
    congr 1
    · simp [entryStF, finishEntry, peOf, hc, truthyS_some_ne e.msgid hne]
  | some cs =>
    rw [hc] at hcom
    obtain ⟨hcs_ne, hwf⟩ := hcom
    rw [show entryLines e = cs ++ [fldMsgid ++ (escapeString e.msgid ++ ['"']),
          fldMsgstr ++ (escapeString e.msgstr ++ ['"']), []]
        from by simp [entryLines, hc, List.append_assoc]]
    rw [List.append_assoc]
    rw [parseLines_comments cs _ _ _ hwf]
    simp only [List.cons_append, List.nil_append, parseLines]
    rw [parseStep_msgid _ _ e.msgid hid hne]
    rw [parseStep_msgstr _ _ e.msgstr hstr rfl]
    rw [parseStep_blank_flush _ _ (Or.inl (truthyS_some_ne e.msgid hne))]
    congr 1
    · simp [entryStF, finishEntry, peOf, hc, truthyS_some_ne e.msgid hne, hcs_ne]
    · simp [entryLines, hc]
      omega

/-- Parsing all serialized entry blocks plus the trailing empty piece:
the entries come back as `peList`, the header and accumulator are
untouched. -/
theorem parseLines_entries (es : List TranslationEntry) :
    ∀ E H n b1 b2, (∀ e ∈ es, WFEntry e) →
    (parseLines (entryStF E H b1 b2) n ((es.map entryLines).flatten ++ [[]])).entries
        = E ++ peList n es ∧
    (parseLines (entryStF E H b1 b2) n ((es.map entryLines).flatten ++ [[]])).header = H ∧
    (parseLines (entryStF E H b1 b2) n ((es.map entryLines).flatten ++ [[]])).curMsgid = none ∧
    (parseLines (entryStF E H b1 b2) n ((es.map entryLines).flatten ++ [[]])).curMsgstr = none := by
  induction es with
  | nil =>
    intro E H n b1 b2 _
    simp only [List.map_nil, List.flatten_nil, List.nil_append, parseLines]
    rw [parseStep_blank_skip (entryStF E H b1 b2) n rfl rfl]
    simp [entryStF, peList]
  | cons e es ih =>
    intro E H n b1 b2 hWF
    simp only [List.map_cons, List.flatten_cons]
    rw [List.append_assoc]
    rw [parseLines_entry e (hWF e (by simp)) E H b1 b2 n _]
    have hih := ih (E ++ [peOf e n]) H (n + (entryLines e).length) false false
      (fun x hx => hWF x (by simp [hx]))
    refine ⟨?_, hih.2.1, hih.2.2.1, hih.2.2.2⟩
    rw [hih.1]
    simp [peList, List.append_assoc]

/-- Parsing the serialized preamble consumes the header stubs, the
header continuation lines and the blank separator, and leaves an empty
parsed header; only the `inMsgstr` flag remembers whether the header had
fields. -/
theorem parseLines_preamble (hdr : List (Str × Str)) (rest : List Str) :
    parseLines initPState 0 (preLines hdr ++ rest)
      = parseLines (entryStF [] [] false hdr.isEmpty) (3 + hdr.length) rest := by
  have hpre : preLines hdr ++ rest
      = hdrMsgid0 :: hdrMsgstr0 :: (hdr.map headerLine ++ ([] :: rest)) := by
    simp [preLines]
  rw [hpre]
  show parseLines (parseStep (parseStep initPState 0 hdrMsgid0) 1 hdrMsgstr0) 2
      (hdr.map headerLine ++ ([] :: rest)) = _
  rw [show parseStep (parseStep initPState 0 hdrMsgid0) 1 hdrMsgstr0 = stAfterStubs
      from by decide]
  cases hdr with
  | nil =>
    simp only [List.map_nil, List.nil_append, List.isEmpty_nil, parseLines]
    rw [parseStep_blank_skip stAfterStubs 2 rfl rfl]
    rfl
  | cons kv kvs =>
    simp only [List.map_cons, List.cons_append]
    show parseLines (parseStep _ 2 (headerLine kv)) 3 (kvs.map headerLine ++ ([] :: rest)) = _
    rw [parseStep_header_cont _ 2 kv rfl rfl]
    simp only [stAfterStubs, Option.getD_none, List.nil_append]
    rw [parseLines_header_cont kvs _ 3 ([] :: rest)
        (unescapeString ((kv.1 ++ (':' :: ' ' :: kv.2)) ++ ['\\', 'n'])) rfl rfl rfl]
    have hnn : unescapeString ((kv.1 ++ (':' :: ' ' :: kv.2)) ++ ['\\', 'n']) ++ hAcc kvs ≠ [] := by
      have h1 : unescapeString ((kv.1 ++ (':' :: ' ' :: kv.2)) ++ ['\\', 'n']) ≠ [] := by
        apply unescapeString_ne_nil
        simp
      intro hx
      exact h1 (List.append_eq_nil.mp hx).1
    simp only [parseLines]
    rw [parseStep_blank_flush _ _ (Or.inr (truthyS_some_ne _ hnn))]
    congr 1

/-- A header field line is newline-free when its key and value are. -/
theorem headerLine_no_nl (kv : Str × Str) (h1 : '\n' ∉ kv.1) (h2 : '\n' ∉ kv.2) :
    '\n' ∉ headerLine kv := by
  intro hmem
  simp [headerLine] at hmem
  rcases hmem with h | h
  · exact h1 h
  · exact h2 h

/-- Every emitted line of a well-formed entry is newline-free. -/
theorem entryLines_no_nl (e : TranslationEntry) (he : WFEntry e) :
    ∀ l ∈ entryLines e, '\n' ∉ l := by
  intro l hl
  obtain ⟨_, _, _, hcom⟩ := he
  cases hc : e.comments with
  | none =>
    rw [show entryLines e = [fldMsgid ++ escapeString e.msgid ++ ['"'],
          fldMsgstr ++ escapeString e.msgstr ++ ['"'], []] from by simp [entryLines, hc]] at hl
    simp only [List.mem_cons, List.not_mem_nil, or_false] at hl
    rcases hl with rfl | rfl | rfl
    · intro hmem
      simp [fldMsgid_chars] at hmem
      exact escapeString_no_nl _ hmem
    · intro hmem
      simp [fldMsgstr_chars] at hmem
      exact escapeString_no_nl _ hmem
    · simp
  | some cs =>
    rw [hc] at hcom
    rw [show entryLines e = cs ++ [fldMsgid ++ escapeString e.msgid ++ ['"'],
          fldMsgstr ++ escapeString e.msgstr ++ ['"'], []] from by simp [entryLines, hc]] at hl
    rcases List.mem_append.mp hl with h | h
    · exact (hcom.2 l h).2.2.1
    · simp only [List.mem_cons, List.not_mem_nil, or_false] at h
      rcases h with rfl | rfl | rfl
      · intro hmem
        simp [fldMsgid_chars] at hmem
        exact escapeString_no_nl _ hmem
      · intro hmem
        simp [fldMsgstr_chars] at hmem
        exact escapeString_no_nl _ hmem
      · simp

/-- Every serialized line is newline-free when the header fields are and
the entries are well-formed. -/
theorem serLines_no_nl (c : PoFile)
    (hh : ∀ kv ∈ c.header, '\n' ∉ kv.1 ∧ '\n' ∉ kv.2)
    (he : ∀ e ∈ c.entries, WFEntry e) :
    ∀ l ∈ serLines c, '\n' ∉ l := by
  intro l hl
  rcases List.mem_append.mp hl with h | h
  · rcases List.mem_append.mp h with h | h
    · rcases List.mem_append.mp h with h | h
      · simp only [List.mem_cons, List.not_mem_nil, or_false] at h
        rcases h with rfl | rfl
        · decide
        · decide
      · obtain ⟨kv, hkv, rfl⟩ := List.mem_map.mp h
        exact headerLine_no_nl kv (hh kv hkv).1 (hh kv hkv).2
    · simp only [List.mem_singleton] at h
      subst h
      simp
  · obtain ⟨ls, hls, hmem⟩ := List.mem_flatten.mp h
    obtain ⟨e, hee, rfl⟩ := List.mem_map.mp hls
    exact entryLines_no_nl e (he e hee) l hmem

/-- The parsed-back entries agree with the originals on msgid, msgstr
and comments (`sourceLine` is rewritten to the parse position). -/
theorem peList_core (es : List TranslationEntry) :
    ∀ n, (∀ e ∈ es, WFEntry e) → (peList n es).map entryCore = es.map entryCore := by
  induction es with
  | nil => intro n _; rfl
  | cons e es ih =>
    intro n hWF
    have he := hWF e (by simp)
    obtain ⟨_, _, _, hcom⟩ := he
    simp only [peList, List.map_cons]
    rw [ih _ (fun x hx => hWF x (by simp [hx]))]
    congr 1
    cases hc : e.comments with
    | none => simp [entryCore, peOf, hc]
    | some cs =>
      rw [hc] at hcom
      simp [entryCore, peOf, hc, hcom.1]

/-- C1 counterexample: serializing a catalog whose header has one field
and parsing the result yields an empty header — `serialize` emits the
header fields as quoted continuation lines after `msgstr ""`, but
`parse` builds the header only from the inline `msgstr` value (which is
empty) and discards the accumulated continuation text at the next blank
line. -/
theorem roundtrip_header_cex :
    cHdrOnly.header ≠ [] ∧
    (parse (serialize cHdrOnly)).header = [] ∧
    parse (serialize cHdrOnly) ≠ cHdrOnly :=
  ⟨by decide, by decide, by decide⟩

/-- C1 amended: for a catalog whose header fields are newline-free and
whose entries are well-formed (non-empty msgid; msgid and msgstr free of
literal backslash-`n`/`t` pairs; comments absent, or a non-empty list of
`#`-led, trim-stable, newline-free lines), `parse (serialize c)` returns
the entry sequence unchanged in msgid, msgstr and comments — but the
header always comes back empty. -/
theorem roundtrip_amended (c : PoFile)
    (hh : ∀ kv ∈ c.header, '\n' ∉ kv.1 ∧ '\n' ∉ kv.2)
    (he : ∀ e ∈ c.entries, WFEntry e) :
    (parse (serialize c)).header = [] ∧
    (parse (serialize c)).entries.map entryCore = c.entries.map entryCore := by
  have hsplit : splitNL (serialize c) = serLines c ++ [[]] := by
    rw [serialize_lines]
    exact splitNL_lines _ (serLines_no_nl c hh he)
  have hshape : serLines c ++ [[]]
      = preLines c.header ++ ((c.entries.map entryLines).flatten ++ [[]]) := by
    simp [serLines, List.append_assoc]
  have hrun := parseLines_entries c.entries [] [] (3 + c.header.length) false
    c.header.isEmpty he
  have hff : finalFlush (parseLines (entryStF [] [] false c.header.isEmpty)
      (3 + c.header.length) ((c.entries.map entryLines).flatten ++ [[]]))
      = peList (3 + c.header.length) c.entries := by
    unfold finalFlush
    rw [hrun.2.2.1, hrun.2.2.2]
    simpa using hrun.1
  unfold parse
  rw [hsplit, hshape, parseLines_preamble c.header _]
  refine ⟨hrun.2.1, ?_⟩
  show ((finalFlush (parseLines (entryStF [] [] false c.header.isEmpty)
      (3 + c.header.length) ((c.entries.map entryLines).flatten ++ [[]]))).map entryCore) = _
  rw [hff]
  exact peList_core c.entries _ he

/-- Witness for C1 amended: a catalog with a one-field header and one
commented entry; its entries survive the round trip, its header does not. -/
theorem roundtrip_amended_witness :
    (∀ kv ∈ cRound.header, '\n' ∉ kv.1 ∧ '\n' ∉ kv.2) ∧
    (∀ e ∈ cRound.entries, WFEntry e) ∧
    ((parse (serialize cRound)).header = [] ∧
     (parse (serialize cRound)).entries.map entryCore = cRound.entries.map entryCore) := by
  have hh : ∀ kv ∈ cRound.header, '\n' ∉ kv.1 ∧ '\n' ∉ kv.2 := by decide
  have he : ∀ e ∈ cRound.entries, WFEntry e := by
    intro e hee
    simp only [cRound, List.mem_singleton] at hee
    subst hee
    refine ⟨by decide, by decide, by decide, by decide, ?_⟩
    intro cm hcm
    simp only [List.mem_singleton] at hcm
    subst hcm
    exact ⟨by decide, by decide, by decide, by decide⟩
  exact ⟨hh, he, roundtrip_amended cRound hh he⟩

end PoT
